import Mathlib

/-!
Verification of the pr-review-manager assignment engine.

The data model is translated from internal/models, the engine from
internal/service, the persistence layer from internal/repository
(repository.Storage over the four tables its CreateTables schema
declares), and the HTTP status mapping from internal/handlers.

Modelling conventions: the database state is the four tables in
row-insertion order, and every SQL statement executes with deterministic
PostgreSQL semantics over that state — primary-key and foreign-key
violations are modelled, while the database/sql transport-error channel
(in Go any Exec or Query may return a driver error) is modelled only for
the UpsertUser statement, through an explicit fault set, because only the
AddTeam rollback path depends on it. The ORDER BY collation is modelled
as code-point order. Timestamps are naturals (Go's zero time, and SQL
NULL for merged_at, are 0); the random source is an unbounded stream of
draws with a cursor, so quantifying over the stream covers every seed.
-/

set_option maxHeartbeats 1000000

namespace PRReview

/-- models.ErrorDetail: code and message of a typed failure. -/
structure ErrorDetail where
  code : String
  message : String
deriving Repr, DecidableEq

/-- models.ErrorResponse: the structured error value. -/
structure ErrorResponse where
  errDetail : ErrorDetail
deriving Repr, DecidableEq

/-- models.ErrorResponse.Error(): the bare message, no code prefix. -/
def ErrorResponse.errorString (e : ErrorResponse) : String :=
  e.errDetail.message

/-- models.ErrorCodeTeamExists -/
def ErrorCodeTeamExists : String := "TEAM_EXISTS"

/-- models.ErrorCodePRExists -/
def ErrorCodePRExists : String := "PR_EXISTS"

/-- models.ErrorCodePRMerged -/
def ErrorCodePRMerged : String := "PR_MERGED"

/-- models.ErrorCodeNotAssigned -/
def ErrorCodeNotAssigned : String := "NOT_ASSIGNED"

/-- models.ErrorCodeNoCandidate -/
def ErrorCodeNoCandidate : String := "NO_CANDIDATE"

/-- models.ErrorCodeNotFound -/
def ErrorCodeNotFound : String := "NOT_FOUND"

/-- A Go `error` returned by the service layer: either a typed
`*models.ErrorResponse` built by `errWithCode`, or an untyped error
wrapped with `fmt.Errorf` (carrying only a message). -/
inductive ServiceError where
  | typed (resp : ErrorResponse)
  | wrapped (msg : String)
deriving Repr, DecidableEq

/-- Go's err.Error() on a service error. -/
def ServiceError.errorString : ServiceError → String
  | .typed r => r.errorString
  | .wrapped m => m

/-- service.errWithCode: builds the typed error value. -/
def errWithCode (code msg : String) : ServiceError :=
  .typed ⟨⟨code, msg⟩⟩

/-- Splits a character list at the first occurrence of a (non-empty)
separator, returning the parts before and after it, or none when the
separator does not occur. -/
def breakAtSep (sep : List Char) : List Char → Option (List Char × List Char)
  | [] => none
  | c :: cs =>
    if sep.isPrefixOf (c :: cs) then some ([], (c :: cs).drop sep.length)
    else
      match breakAtSep sep cs with
      | none => none
      | some (pre, post) => some (c :: pre, post)

/-- strings.SplitN(s, sep, 2): at most two pieces, split at the first
occurrence of the separator. -/
def splitN2 (s sep : String) : List String :=
  match breakAtSep sep.data s.data with
  | none => [s]
  | some (pre, post) => [String.mk pre, String.mk post]

/-- service.ParseCodeFromError: splits err.Error() on the string
colon-space and returns the part before it, or the empty string when the
separator is absent (the Go code also returns the empty string for a nil
error, a case that does not arise here). -/
def ParseCodeFromError (err : ServiceError) : String :=
  let parts := splitN2 ( err.errorString) ": "
  if parts.length ≥ 2 then parts.headD "" else ""

/-- net/http status constants used by the handlers. -/
def statusConflict : Nat := 409

/-- net/http.StatusNotFound. -/
def statusNotFound : Nat := 404

/-- net/http.StatusInternalServerError. -/
def statusInternalServerError : Nat := 500

/-- handlers.getStatusByCode: maps an error code to an HTTP status. -/
def getStatusByCode (code : String) : Nat :=
  if code = ErrorCodeNotFound then statusNotFound
  else if code = ErrorCodeTeamExists ∨ code = ErrorCodePRExists then statusConflict
  else if code = ErrorCodePRMerged ∨ code = ErrorCodeNotAssigned ∨ code = ErrorCodeNoCandidate then
    statusConflict
  else statusInternalServerError

/-- Every (code, message) pair the service passes to errWithCode, in
source order: AddTeam, GetTeam, SetUserActive, CreatePullRequest (twice),
MergePullRequest, ReassignReviewer (four sites), GetReviewPRs. -/
def serviceTypedErrors : List (String × String) :=
  [ (ErrorCodeTeamExists, "team_name already exists"),
    (ErrorCodeNotFound, "team not found"),
    (ErrorCodeNotFound, "user not found"),
    (ErrorCodePRExists, "PR id already exists"),
    (ErrorCodeNotFound, "author not found"),
    (ErrorCodeNotFound, "pr not found"),
    (ErrorCodePRMerged, "cannot reassign on merged PR"),
    (ErrorCodeNotAssigned, "reviewer is not assigned to this PR"),
    (ErrorCodeNoCandidate, "no active replacement candidate in team"),
    (ErrorCodeNotFound, "user or prs not found") ]

/-- models.TeamMember. -/
structure TeamMember where
  userID : String
  username : String
  isActive : Bool
deriving Repr, DecidableEq

/-- models.Team. -/
structure Team where
  teamName : String
  members : List TeamMember
deriving Repr, DecidableEq

/-- models.User. -/
structure User where
  userID : String
  username : String
  teamName : String
  isActive : Bool
deriving Repr, DecidableEq

/-- models.PRStatus: OPEN or MERGED. -/
inductive PRStatus where
  | OPEN
  | MERGED
deriving Repr, DecidableEq

/-- models.PullRequest. Timestamps are naturals; Go's zero time is 0
(MergedAt is 0 while the PR is open). -/
structure PullRequest where
  pullRequestID : String
  pullRequestName : String
  authorID : String
  status : PRStatus
  assignedReviewers : List String
  createdAt : Nat
  mergedAt : Nat
deriving Repr, DecidableEq

/-- models.CreatePullRequestRequest. -/
structure CreatePullRequestRequest where
  pullRequestID : String
  pullRequestName : String
  authorID : String
deriving Repr, DecidableEq

/-- models.TeamResponse. -/
structure TeamResponse where
  team : Team
deriving Repr, DecidableEq

/-- models.PullRequestResponse. -/
structure PullRequestResponse where
  pr : PullRequest
deriving Repr, DecidableEq

/-- math/rand source: an unbounded stream of draws plus a cursor.
Quantifying over the stream covers every seed of the generator. -/
structure Rng where
  stream : Nat → Nat
  cursor : Nat

/-- rand.Intn(n): a value in [0, n) and the advanced generator. -/
def Rng.intn (r : Rng) (n : Nat) : Nat × Rng :=
  (r.stream r.cursor % n, ⟨r.stream, r.cursor + 1⟩)

/-- Code-point comparison of character lists: the deterministic model of
the ORDER BY collation. -/
def leChars : List Char → List Char → Bool
  | [], _ => true
  | _ :: _, [] => false
  | c :: cs, d :: ds =>
    if c.toNat < d.toNat then true
    else if d.toNat < c.toNat then false
    else leChars cs ds

/-- String comparison on the underlying characters. -/
def strLe (a b : String) : Bool :=
  leChars a.data b.data

/-- The ordering relation of ORDER BY user_id. -/
def strLeRel (a b : String) : Prop :=
  strLe a b = true

instance : DecidableRel strLeRel :=
  fun a b => inferInstanceAs (Decidable (strLe a b = true))

/-- A row of the pull_requests table; the reviewer relation lives in the
separate reviewers table (CreateTables). -/
structure PRRow where
  pullRequestID : String
  pullRequestName : String
  authorID : String
  status : PRStatus
  createdAt : Nat
  mergedAt : Nat
deriving Repr, DecidableEq

/-- repository.Storage: the handle to the PostgreSQL database, modelled
as the four tables of CreateTables in row order — teams(team_name PK),
users(user_id PK, team_name FK → teams ON DELETE CASCADE),
pull_requests(pull_request_id PK, author_id FK → users ON DELETE
CASCADE), reviewers(PK (pull_request_id, user_id), FKs to pull_requests
and users, both ON DELETE CASCADE). `failUpsert` is the driver-error
channel of the UpsertUser statement: the user IDs whose upsert Exec
fails with a transport error. -/
structure Storage where
  teams : List String
  users : List User
  prs : List PRRow
  reviewers : List (String × String)
  failUpsert : List String
deriving Repr, DecidableEq

/-- The statement-level errors the repository methods surface, each
carrying its fmt.Errorf-wrapped message: PostgreSQL unique-constraint
and foreign-key violations, sql.ErrNoRows-based not-found errors, and
database/sql driver errors. -/
inductive StoreErr where
  | uniqueViolation (msg : String)
  | fkViolation (msg : String)
  | notFound (msg : String)
  | driver (msg : String)
deriving Repr, DecidableEq

/-- The text err.Error() carries into the service layer. -/
def StoreErr.message : StoreErr → String
  | .uniqueViolation m => m
  | .fkViolation m => m
  | .notFound m => m
  | .driver m => m

/-- The service's strings.Contains(err.Error(), "unique constraint") ||
strings.Contains(err.Error(), "23505") test: pq's unique-violation text
"duplicate key value violates unique constraint ..." holds the first
substring, and no other error class produced here holds either. -/
def StoreErr.isUniqueViolation : StoreErr → Bool
  | .uniqueViolation _ => true
  | _ => false

/-- repository.Storage.CreateTeam: INSERT INTO teams (team_name): a
registered name violates the teams primary key. -/
def Storage.CreateTeam (st : Storage) (t : Team) : Except StoreErr Storage :=
  if t.teamName ∈ st.teams then
    .error (.uniqueViolation "create team: pq: duplicate key value violates unique constraint")
  else .ok { st with teams := st.teams ++ [t.teamName] }

/-- repository.Storage.DeleteTeam: DELETE FROM teams WHERE team_name=$1.
ON DELETE CASCADE removes the team's user rows, then the pull requests
authored by a removed user, then the reviewer links of a removed pull
request or a removed user. The service discards this call's error
value; the statement itself cannot fail. -/
def Storage.DeleteTeam (st : Storage) (name : String) : Storage :=
  let deadUser := fun uid : String =>
    (st.users.filter (fun u => u.teamName == name)).any (fun u => u.userID == uid)
  let deadPR := fun pid : String =>
    (st.prs.filter (fun p => deadUser p.authorID)).any (fun p => p.pullRequestID == pid)
  { st with
    teams := st.teams.filter (fun n => !(n == name)),
    users := st.users.filter (fun u => !(u.teamName == name)),
    prs := st.prs.filter (fun p => !(deadUser p.authorID)),
    reviewers := st.reviewers.filter (fun rv => !(deadPR rv.1) && !(deadUser rv.2)) }

/-- repository.Storage.GetTeam: loads the member rows WHERE team_name=$1
(no ORDER BY: modelled in table order), and fails with "team not found"
when COUNT(*) of matching teams rows is zero. -/
def Storage.GetTeam (st : Storage) (teamName : String) : Except StoreErr Team :=
  if teamName ∈ st.teams then
    .ok ⟨teamName, (st.users.filter (fun u => u.teamName = teamName)).map
      (fun u => ⟨u.userID, u.username, u.isActive⟩)⟩
  else .error (.notFound "team not found")

/-- repository.Storage.UpsertUser: INSERT ... ON CONFLICT (user_id) DO
UPDATE. A faulted ID fails on the driver channel; a team reference
outside teams violates the users.team_name foreign key; otherwise the
row with the same ID is replaced in place, or a new row is appended. -/
def Storage.UpsertUser (st : Storage) (u : User) : Except StoreErr Storage :=
  if u.userID ∈ st.failUpsert then .error (.driver "upsert user: driver failure")
  else if u.teamName ∈ st.teams then
    if st.users.any (fun v => v.userID = u.userID) then
      .ok { st with users := st.users.map (fun v => if v.userID = u.userID then u else v) }
    else .ok { st with users := st.users ++ [u] }
  else
    .error (.fkViolation "upsert user: pq: insert or update on table users violates foreign key constraint")

/-- repository.Storage.GetUser: SELECT ... FROM users WHERE user_id=$1;
sql.ErrNoRows becomes the not-found error. -/
def Storage.GetUser (st : Storage) (id : String) : Except StoreErr User :=
  match st.users.find? (fun u => u.userID = id) with
  | some u => .ok u
  | none => .error (.notFound "user not found: sql: no rows in result set")

/-- The rows sorted ascending: ORDER BY user_id. -/
def sortByUserId (l : List String) : List String :=
  List.insertionSort strLeRel l

/-- repository.Storage.ListReviewersByPR: SELECT user_id FROM reviewers
WHERE pull_request_id=$1 ORDER BY user_id; the query itself cannot fail
deterministically. -/
def Storage.ListReviewersByPR (st : Storage) (prID : String) : List String :=
  sortByUserId ((st.reviewers.filter (fun rv => rv.1 = prID)).map (fun rv => rv.2))

/-- repository.Storage.GetPullRequest: loads the row (sql.ErrNoRows
becomes not-found), then attaches the reviewer IDs from
ListReviewersByPR — re-sorted by user_id, not in assignment order. -/
def Storage.GetPullRequest (st : Storage) (prID : String) : Except StoreErr PullRequest :=
  match st.prs.find? (fun p => p.pullRequestID = prID) with
  | none => .error (.notFound "pr not found: sql: no rows in result set")
  | some row =>
    .ok ⟨row.pullRequestID, row.pullRequestName, row.authorID, row.status,
      st.ListReviewersByPR prID, row.createdAt, row.mergedAt⟩

/-- repository.Storage.CreatePullRequest: INSERT INTO pull_requests
(id, name, author, status, created_at): a present id violates the
primary key, a missing author the author_id foreign key; merged_at is
not inserted, so the stored row carries the NULL (zero) merge time, and
the reviewers relation is untouched. -/
def Storage.CreatePullRequest (st : Storage) (pr : PullRequest) : Except StoreErr Storage :=
  if st.prs.any (fun p => p.pullRequestID = pr.pullRequestID) then
    .error (.uniqueViolation "create pr: pq: duplicate key value violates unique constraint")
  else if st.users.any (fun u => u.userID = pr.authorID) then
    .ok { st with prs := st.prs ++
      [⟨pr.pullRequestID, pr.pullRequestName, pr.authorID, pr.status, pr.createdAt, 0⟩] }
  else
    .error (.fkViolation "create pr: pq: insert or update on table pull_requests violates foreign key constraint")

/-- One INSERT INTO reviewers (pull_request_id, user_id), checked
against the composite primary key and the two foreign keys. -/
def insertReviewerRow (st : Storage) (prID uid : String) : Except StoreErr Storage :=
  if (prID, uid) ∈ st.reviewers then
    .error (.uniqueViolation "pq: duplicate key value violates unique constraint")
  else if st.prs.any (fun p => p.pullRequestID = prID) then
    if st.users.any (fun u => u.userID = uid) then
      .ok { st with reviewers := st.reviewers ++ [(prID, uid)] }
    else .error (.fkViolation "pq: insert or update on table reviewers violates foreign key constraint")
  else .error (.fkViolation "pq: insert or update on table reviewers violates foreign key constraint")

/-- repository.Storage.AssignReviewer: the single reviewers INSERT. -/
def Storage.AssignReviewer (st : Storage) (prID userID : String) : Except StoreErr Storage :=
  insertReviewerRow st prID userID

/-- The reviewer re-insertion loop of UpdatePullRequest: each INSERT may
violate the composite key or a foreign key, stopping the loop with the
rows inserted so far kept. -/
def updateReviewersLoop (prID : String) : List String → Storage → Except StoreErr Storage
  | [], st => .ok st
  | uid :: rest, st =>
    match insertReviewerRow st prID uid with
    | .error e => .error e
    | .ok st1 => updateReviewersLoop prID rest st1

/-- repository.Storage.UpdatePullRequest: UPDATE the row's name, author,
status and timestamps WHERE pull_request_id (merged_at NULL when zero;
an author set outside users violates the foreign key when a row
matches), then DELETE all the PR's reviewer links and INSERT the new
ones in order. -/
def Storage.UpdatePullRequest (st : Storage) (pr : PullRequest) : Except StoreErr Storage :=
  if (st.prs.any fun p => p.pullRequestID = pr.pullRequestID) &&
      !(st.users.any fun u => u.userID = pr.authorID) then
    .error (.fkViolation "update pr: pq: insert or update on table pull_requests violates foreign key constraint")
  else
    updateReviewersLoop pr.pullRequestID pr.assignedReviewers
      { st with
        prs := st.prs.map (fun p =>
          if p.pullRequestID = pr.pullRequestID then
            ⟨p.pullRequestID, pr.pullRequestName, pr.authorID, pr.status, pr.createdAt, pr.mergedAt⟩
          else p),
        reviewers := st.reviewers.filter (fun rv => !(rv.1 == pr.pullRequestID)) }

/-- The integrity the CreateTables schema enforces on every reachable
database: the four primary keys and the four foreign keys. -/
structure Storage.WF (st : Storage) : Prop where
  teamsNodup : st.teams.Nodup
  userIdsNodup : (st.users.map (fun u => u.userID)).Nodup
  prIdsNodup : (st.prs.map (fun p => p.pullRequestID)).Nodup
  reviewersNodup : st.reviewers.Nodup
  userTeamFK : ∀ u ∈ st.users, u.teamName ∈ st.teams
  prAuthorFK : ∀ p ∈ st.prs, ∃ u ∈ st.users, u.userID = p.authorID
  reviewerPrFK : ∀ rv ∈ st.reviewers, ∃ p ∈ st.prs, p.pullRequestID = rv.1
  reviewerUserFK : ∀ rv ∈ st.reviewers, ∃ u ∈ st.users, u.userID = rv.2

/-- The models.User built for a team member inside Service.AddTeam. -/
def memberUser (name : String) (m : TeamMember) : User :=
  ⟨m.userID, m.username, name, m.isActive⟩

/-- The member loop of Service.AddTeam: upserts each member as a user of
the team; on a failure the team row is deleted (compensating rollback)
and the wrapped upsert error is surfaced. -/
def addTeamMembersLoop (name : String) :
    List TeamMember → Storage → Except ServiceError Unit × Storage
  | [], st => (.ok (), st)
  | m :: ms, st =>
    let u : User := memberUser name m
    match st.UpsertUser u with
    | .error e =>
      (.error (.wrapped ("failed upsert user " ++ u.userID ++ ": " ++ e.message)),
        st.DeleteTeam name)
    | .ok st1 => addTeamMembersLoop name ms st1

/-- Service.AddTeam: creates the team row, then upserts every member. -/
def Service.AddTeam (st : Storage) (team : Team) :
    Except ServiceError TeamResponse × Storage :=
  match st.CreateTeam team with
  | .error e =>
    if e.isUniqueViolation then
      (.error (errWithCode ErrorCodeTeamExists "team_name already exists"), st)
    else (.error (.wrapped ("failed create team: " ++ e.message)), st)
  | .ok st1 =>
    match addTeamMembersLoop team.teamName team.members st1 with
    | (.error e, st2) => (.error e, st2)
    | (.ok _, st2) => (.ok ⟨team⟩, st2)

/-- Service.GetTeam: fetches a team by name; performs no write. -/
def Service.GetTeam (st : Storage) (teamName : String) :
    Except ServiceError TeamResponse :=
  match st.GetTeam teamName with
  | .error _ => .error (errWithCode ErrorCodeNotFound "team not found")
  | .ok team => .ok ⟨team⟩

/-- The parallel assignment c[i], c[j] = c[j], c[i] on a list; an
out-of-range index leaves the list unchanged (never hit by the shuffle,
whose indices are always in range). -/
def listSwap {α : Type} (xs : List α) (i j : Nat) : List α :=
  match xs[i]?, xs[j]? with
  | some a, some b => (xs.set i b).set j a
  | _, _ => xs

/-- The Fisher–Yates loop of Service.CreatePullRequest: the iteration at
index i+1 draws j := Intn(i+2) and swaps positions i+1 and j, then moves
down; index 0 ends the loop. -/
def fyLoop {α : Type} : List α → Rng → Nat → List α × Rng
  | xs, r, 0 => (xs, r)
  | xs, r, Nat.succ i =>
    let p := r.intn (i + 2)
    fyLoop (listSwap xs (i + 1) p.1) p.2 i

/-- The shuffle `for i := len(c)-1; i > 0; i-- { j := Intn(i+1); swap }`. -/
def fisherYates {α : Type} (xs : List α) (r : Rng) : List α × Rng :=
  fyLoop xs r (xs.length - 1)

/-- The reviewer-link loop of Service.CreatePullRequest: persists each
assigned reviewer; an error stops the loop, keeping earlier links. -/
def assignReviewersLoop (prID : String) :
    List String → Storage → Except ServiceError Unit × Storage
  | [], st => (.ok (), st)
  | rid :: rest, st =>
    match st.AssignReviewer prID rid with
    | .error e =>
      (.error (.wrapped ("failed assign reviewer " ++ rid ++ ": " ++ e.message)), st)
    | .ok st1 => assignReviewersLoop prID rest st1

/-- The candidate pool of Service.CreatePullRequest: the active team
members other than the author (the loop that skips inactive members and
the author). -/
def createCandidates (team : Team) (author : User) : List TeamMember :=
  team.members.filter (fun m => m.isActive && !(m.userID == author.userID))

/-- The selection block of Service.CreatePullRequest: when candidates
exist, shuffle them and keep the IDs of the first limit = min(2, len)
entries; an empty pool yields no reviewers and leaves the generator
untouched. -/
def createSelect (candidates : List TeamMember) (r : Rng) : List String × Rng :=
  if candidates.length > 0 then
    let p := fisherYates candidates r
    let limit := if p.1.length < 2 then p.1.length else 2
    ((p.1.take limit).map (fun m => m.userID), p.2)
  else ([], r)

/-- Service.CreatePullRequest: rejects a duplicate PR id, resolves the
author and their team, filters the active non-author candidates, shuffles
and takes up to two reviewers, then persists the PR and reviewer links.
`now` stands for time.Now().UTC(). -/
def Service.CreatePullRequest (st : Storage) (r : Rng)
    (req : CreatePullRequestRequest) (now : Nat) :
    (Except ServiceError PullRequestResponse × Storage) × Rng :=
  match st.GetPullRequest req.pullRequestID with
  | .ok _ => ((.error (errWithCode ErrorCodePRExists "PR id already exists"), st), r)
  | .error _ =>
  match st.GetUser req.authorID with
  | .error _ => ((.error (errWithCode ErrorCodeNotFound "author not found"), st), r)
  | .ok author =>
  match st.GetTeam author.teamName with
  | .error _ => ((.error (errWithCode ErrorCodeNotFound "team not found"), st), r)
  | .ok team =>
    let candidates := createCandidates team author
    let sel := createSelect candidates r
    let assigned := sel.1
    let r1 := sel.2
    let pr : PullRequest :=
      ⟨req.pullRequestID, req.pullRequestName, req.authorID, .OPEN, assigned, now, 0⟩
    match st.CreatePullRequest pr with
    | .error e => ((.error (.wrapped ("failed create pr: " ++ e.message)), st), r1)
    | .ok st1 =>
      match assignReviewersLoop pr.pullRequestID assigned st1 with
      | (.error e, st2) => ((.error e, st2), r1)
      | (.ok _, st2) => ((.ok ⟨pr⟩, st2), r1)

/-- Service.MergePullRequest: idempotent merge; an already-merged PR is
returned unchanged with no write, otherwise the PR transitions to MERGED
with mergedAt = now and is persisted. -/
def Service.MergePullRequest (st : Storage) (prID : String) (now : Nat) :
    Except ServiceError PullRequestResponse × Storage :=
  match st.GetPullRequest prID with
  | .error _ => (.error (errWithCode ErrorCodeNotFound "pr not found"), st)
  | .ok pr =>
    if pr.status = .MERGED then (.ok ⟨pr⟩, st)
    else
      match st.UpdatePullRequest { pr with status := PRStatus.MERGED, mergedAt := now } with
      | .error e => (.error (.wrapped ("failed update pr: " ++ e.message)), st)
      | .ok st1 => (.ok ⟨{ pr with status := PRStatus.MERGED, mergedAt := now }⟩, st1)

/-- The exclusion set of Service.ReassignReviewer: the old reviewer,
every currently assigned reviewer, and the author (built as a map in the
source; only membership matters). -/
def reassignExclude (pr : PullRequest) (oldUserID : String) : List String :=
  oldUserID :: pr.assignedReviewers ++ [pr.authorID]

/-- The replacement candidate pool of Service.ReassignReviewer: the
active team members outside the exclusion set. -/
def reassignCandidates (team : Team) (pr : PullRequest) (oldUserID : String) :
    List TeamMember :=
  team.members.filter
    (fun m => m.isActive && !((reassignExclude pr oldUserID).contains m.userID))

/-- The candidate Service.ReassignReviewer draws when the pool is not
empty: the element at index Intn(len) = stream(cursor) % pool size (the
default member of getD is never used, the index being in range). -/
def reassignDraw (team : Team) (pr : PullRequest) (oldUserID : String) (r : Rng) :
    TeamMember :=
  (reassignCandidates team pr oldUserID).getD
    (r.stream r.cursor % (reassignCandidates team pr oldUserID).length) ⟨"", "", false⟩

/-- Service.ReassignReviewer: checks, in order, PR existence, MERGED
status, that the old reviewer is assigned (first matching slot), the old
reviewer's user row and team; then draws one candidate uniformly from the
active teammates excluding the old reviewer, every assigned reviewer and
the author, replaces the matched slot in place and persists the PR. -/
def Service.ReassignReviewer (st : Storage) (r : Rng) (prID oldUserID : String) :
    (Except ServiceError (PullRequest × String) × Storage) × Rng :=
  match st.GetPullRequest prID with
  | .error _ => ((.error (errWithCode ErrorCodeNotFound "pr not found"), st), r)
  | .ok pr =>
  if pr.status = .MERGED then
    ((.error (errWithCode ErrorCodePRMerged "cannot reassign on merged PR"), st), r)
  else
  match pr.assignedReviewers.findIdx? (fun id => id == oldUserID) with
  | none =>
    ((.error (errWithCode ErrorCodeNotAssigned "reviewer is not assigned to this PR"), st), r)
  | some found =>
  match st.GetUser oldUserID with
  | .error _ => ((.error (errWithCode ErrorCodeNotFound "user not found"), st), r)
  | .ok oldUser =>
  match st.GetTeam oldUser.teamName with
  | .error _ => ((.error (errWithCode ErrorCodeNotFound "team not found"), st), r)
  | .ok team =>
    let candidates := reassignCandidates team pr oldUserID
    if candidates.length = 0 then
      ((.error (errWithCode ErrorCodeNoCandidate "no active replacement candidate in team"), st), r)
    else
      let p := r.intn candidates.length
      let newReviewer := (candidates.getD p.1 ⟨"", "", false⟩).userID
      match st.UpdatePullRequest
          { pr with assignedReviewers := pr.assignedReviewers.set found newReviewer } with
      | .error e => ((.error (.wrapped ("failed update pr: " ++ e.message)), st), p.2)
      | .ok st1 =>
        ((.ok ({ pr with assignedReviewers := pr.assignedReviewers.set found newReviewer },
          newReviewer), st1), p.2)

/-- The error code carried by a failed service result (empty for a
success or for an untyped wrapped error). -/
def resultCode {α : Type} : Except ServiceError α → String
  | .error (.typed r) => r.errDetail.code
  | _ => ""



/-! ### The ORDER BY comparison is total and transitive -/

theorem leChars_total : ∀ (a b : List Char), leChars a b = true ∨ leChars b a = true
  | [], _ => Or.inl rfl
  | _ :: _, [] => Or.inr rfl
  | c :: cs, d :: ds => by
    unfold leChars
    rcases Nat.lt_trichotomy c.toNat d.toNat with h | h | h
    · left
      rw [if_pos h]
    · rw [if_neg (by omega), if_neg (by omega), if_neg (by omega), if_neg (by omega)]
      exact leChars_total cs ds
    · right
      rw [if_pos h]

theorem leChars_trans : ∀ (a b c : List Char),
    leChars a b = true → leChars b c = true → leChars a c = true
  | [], _, _, _, _ => rfl
  | _ :: _, [], _, h1, _ => by simp [leChars] at h1
  | _ :: _, _ :: _, [], _, h2 => by simp [leChars] at h2
  | x :: xs, y :: ys, z :: zs, h1, h2 => by
    unfold leChars at h1 h2 ⊢
    rcases Nat.lt_trichotomy x.toNat y.toNat with hxy | hxy | hxy <;>
      rcases Nat.lt_trichotomy y.toNat z.toNat with hyz | hyz | hyz
    · rw [if_pos (show x.toNat < z.toNat by omega)]
    · rw [if_pos (show x.toNat < z.toNat by omega)]
    · rw [if_neg (by omega), if_pos (by omega)] at h2
      cases h2
    · rw [if_pos (show x.toNat < z.toNat by omega)]
    · rw [if_neg (by omega), if_neg (by omega)] at h1 h2 ⊢
      exact leChars_trans xs ys zs h1 h2
    · rw [if_neg (by omega), if_pos (by omega)] at h2
      cases h2
    · rw [if_neg (by omega), if_pos (by omega)] at h1
      cases h1
    · rw [if_neg (by omega), if_pos (by omega)] at h1
      cases h1
    · rw [if_neg (by omega), if_pos (by omega)] at h1
      cases h1

instance : IsTotal String strLeRel :=
  ⟨fun a b => leChars_total a.data b.data⟩

instance : IsTrans String strLeRel :=
  ⟨fun a b c h1 h2 => leChars_trans a.data b.data c.data h1 h2⟩

/-- The sort permutes the rows. -/
theorem sortByUserId_perm (l : List String) : (sortByUserId l).Perm l :=
  List.perm_insertionSort strLeRel l

/-- The sort's output is ordered. -/
theorem sortByUserId_sorted (l : List String) : List.Sorted strLeRel (sortByUserId l) :=
  List.sorted_insertionSort strLeRel l

/-- Sorting an ordered list changes nothing. -/
theorem sortByUserId_of_sorted {l : List String} (h : List.Sorted strLeRel l) :
    sortByUserId l = l :=
  h.insertionSort_eq

/-! ### The shuffle permutes its input -/

/-- Writing x into slot n while pulling the slot's old value b to the
front permutes pushing x to the front. -/
theorem perm_cons_set {α : Type} : ∀ (t : List α) (n : Nat) (b x : α),
    t[n]? = some b → (b :: t.set n x).Perm (x :: t)
  | [], _, _, _, h => by simp at h
  | c :: t, 0, b, x, h => by
    simp only [List.getElem?_cons_zero, Option.some.injEq] at h
    subst h
    exact List.Perm.swap x c t
  | c :: t, n + 1, b, x, h => by
    simp only [List.getElem?_cons_succ] at h
    have step1 : (b :: c :: t.set n x).Perm (c :: b :: t.set n x) := List.Perm.swap ..
    have step2 : (c :: b :: t.set n x).Perm (c :: x :: t) :=
      (perm_cons_set t n b x h).cons c
    have step3 : (c :: x :: t).Perm (x :: c :: t) := List.Perm.swap ..
    exact (step1.trans step2).trans step3

/-- The parallel swap is a permutation. -/
theorem listSwap_perm {α : Type} (xs : List α) (i j : Nat) :
    (listSwap xs i j).Perm xs := by
  unfold listSwap
  cases hi : xs[i]? with
  | none => exact List.Perm.refl xs
  | some a =>
    cases hj : xs[j]? with
    | none => exact List.Perm.refl xs
    | some b =>
      have hii : i < xs.length := by
        by_contra hc
        rw [List.getElem?_eq_none (Nat.le_of_not_lt hc)] at hi
        cases hi
      have hjset : (xs.set i b)[j]? = some b := by
        rw [List.getElem?_set]
        by_cases hij : i = j
        · rw [if_pos hij, if_pos (hij ▸ hii)]
        · rw [if_neg hij]
          exact hj
      exact ((perm_cons_set (xs.set i b) j b a hjset).trans
        (perm_cons_set xs i a b hi)).cons_inv

/-- Every pass of the Fisher–Yates loop permutes its input. -/
theorem fyLoop_perm {α : Type} (n : Nat) : ∀ (xs : List α) (r : Rng),
    (fyLoop xs r n).1.Perm xs := by
  induction n with
  | zero => intro xs r; exact List.Perm.refl xs
  | succ n ih =>
    intro xs r
    show (fyLoop (listSwap xs (n + 1) (r.intn (n + 2)).1) (r.intn (n + 2)).2 n).1.Perm xs
    exact (ih _ _).trans (listSwap_perm ..)

/-- The shuffled pool is a permutation of the pool. -/
theorem fisherYates_perm {α : Type} (xs : List α) (r : Rng) :
    (fisherYates xs r).1.Perm xs :=
  fyLoop_perm _ _ _

/-- The reviewer IDs Service.CreatePullRequest selects are the first
min(2, pool size) entries of some permutation of the pool. -/
theorem createSelect_spec (candidates : List TeamMember) (r : Rng) :
    ∃ shuffled : List TeamMember, shuffled.Perm candidates ∧
      (createSelect candidates r).1 =
        (shuffled.take (min 2 candidates.length)).map (fun m => m.userID) := by
  unfold createSelect
  by_cases h : candidates.length > 0
  · rw [if_pos h]
    refine ⟨(fisherYates candidates r).1, fisherYates_perm .., ?_⟩
    have hlen : (fisherYates candidates r).1.length = candidates.length :=
      (fisherYates_perm ..).length_eq
    have hmin : (if (fisherYates candidates r).1.length < 2 then
        (fisherYates candidates r).1.length else 2) = min 2 candidates.length := by
      rw [hlen]
      rcases Nat.lt_or_ge candidates.length 2 with hh | hh
      · rw [if_pos hh, Nat.min_eq_right (Nat.le_of_lt hh)]
      · rw [if_neg (Nat.not_lt.mpr hh), Nat.min_eq_left hh]
    dsimp only
    rw [hmin]
  · rw [if_neg h]
    refine ⟨[], ?_, by simp⟩
    have : candidates = [] := by
      cases candidates with
      | nil => rfl
      | cons c cs => exact absurd (by simp) h
    rw [this]

/-! ### Claim theorems -/

/-- C10: every typed error the service builds through errWithCode carries
its message with no code prefix and no colon-space separator, so
ParseCodeFromError yields the empty string and getStatusByCode sends all
of them to the internal-server-error status, never the not-found or
conflict class; the code lives only in the structured value. -/
theorem c10_typed_errors_map_to_internal_status :
    ∀ p ∈ serviceTypedErrors,
      (errWithCode p.1 p.2).errorString = p.2 ∧
      (splitN2 ((errWithCode p.1 p.2).errorString) ": ").length = 1 ∧
      ParseCodeFromError (errWithCode p.1 p.2) = "" ∧
      getStatusByCode (ParseCodeFromError (errWithCode p.1 p.2)) =
        statusInternalServerError ∧
      getStatusByCode (ParseCodeFromError (errWithCode p.1 p.2)) ≠ statusNotFound ∧
      getStatusByCode (ParseCodeFromError (errWithCode p.1 p.2)) ≠ statusConflict := by
  decide


/-! ### Facts about the persistence layer -/

/-- The pull_requests row carrying a pull request's scalar fields. -/
def rowOf (pr : PullRequest) : PRRow :=
  ⟨pr.pullRequestID, pr.pullRequestName, pr.authorID, pr.status, pr.createdAt, pr.mergedAt⟩

theorem getPullRequest_ok {st : Storage} {id : String} {pr : PullRequest}
    (h : st.GetPullRequest id = .ok pr) :
    st.prs.find? (fun p => p.pullRequestID = id) = some (rowOf pr) ∧
    pr.assignedReviewers = st.ListReviewersByPR id := by
  unfold Storage.GetPullRequest at h
  cases hf : st.prs.find? (fun p => p.pullRequestID = id) with
  | none => rw [hf] at h; cases h
  | some row =>
    rw [hf] at h
    cases h
    exact ⟨rfl, rfl⟩

theorem getPullRequest_ok_id {st : Storage} {id : String} {pr : PullRequest}
    (h : st.GetPullRequest id = .ok pr) : pr.pullRequestID = id := by
  have := List.find?_some (getPullRequest_ok h).1
  simpa [rowOf] using this

/-- A fetched pull request's reviewer list is ordered: it comes out of
ORDER BY user_id. -/
theorem getPullRequest_sorted {st : Storage} {id : String} {pr : PullRequest}
    (h : st.GetPullRequest id = .ok pr) :
    List.Sorted strLeRel pr.assignedReviewers := by
  rw [(getPullRequest_ok h).2]
  exact sortByUserId_sorted _

/-- A fetched user's ID is the requested ID. -/
theorem getUser_ok_id {st : Storage} {id : String} {u : User}
    (h : st.GetUser id = .ok u) : u.userID = id := by
  unfold Storage.GetUser at h
  cases hf : st.users.find? (fun v => v.userID = id) with
  | none => rw [hf] at h; cases h
  | some v =>
    rw [hf] at h
    cases h
    simpa using List.find?_some hf

/-- A fetched user is a user row. -/
theorem getUser_ok_mem {st : Storage} {id : String} {u : User}
    (h : st.GetUser id = .ok u) : u ∈ st.users := by
  unfold Storage.GetUser at h
  cases hf : st.users.find? (fun v => v.userID = id) with
  | none => rw [hf] at h; cases h
  | some v =>
    rw [hf] at h
    cases h
    exact List.mem_of_find?_eq_some hf

/-- A successful team fetch returns the requested name with the member
rows projected from the users table. -/
theorem getTeam_ok {st : Storage} {name : String} {team : Team}
    (h : st.GetTeam name = .ok team) :
    name ∈ st.teams ∧
    team = ⟨name, (st.users.filter (fun u => u.teamName = name)).map
      (fun u => ⟨u.userID, u.username, u.isActive⟩)⟩ := by
  unfold Storage.GetTeam at h
  by_cases hmem : name ∈ st.teams
  · rw [if_pos hmem] at h
    cases h
    exact ⟨hmem, rfl⟩
  · rw [if_neg hmem] at h
    cases h

/-- With the users primary key, a fetched team's member list carries
pairwise-distinct user IDs. -/
theorem getTeam_members_nodup {st : Storage} {name : String} {team : Team}
    (hn : (st.users.map (fun u => u.userID)).Nodup)
    (h : st.GetTeam name = .ok team) :
    (team.members.map (fun m => m.userID)).Nodup := by
  obtain ⟨-, rfl⟩ := getTeam_ok h
  rw [List.map_map]
  exact ((List.filter_sublist _).map _).nodup hn

/-- Every member of a fetched team is backed by a user row of that
team. -/
theorem getTeam_member_user {st : Storage} {name : String} {team : Team}
    (h : st.GetTeam name = .ok team) :
    ∀ m ∈ team.members, ∃ u ∈ st.users, u.userID = m.userID := by
  obtain ⟨-, rfl⟩ := getTeam_ok h
  intro m hm
  rw [List.mem_map] at hm
  obtain ⟨u, hu, hum⟩ := hm
  exact ⟨u, (List.mem_filter.mp hu).1, by rw [← hum]⟩

/-- Updating the rows matching an id and then looking the id up yields
the updated row, provided one existed. -/
theorem find?_update_rows (prs : List PRRow) (pr : PullRequest) (row0 : PRRow)
    (hex : prs.find? (fun p => p.pullRequestID = pr.pullRequestID) = some row0) :
    (prs.map (fun p => if p.pullRequestID = pr.pullRequestID then
      (⟨p.pullRequestID, pr.pullRequestName, pr.authorID, pr.status, pr.createdAt,
        pr.mergedAt⟩ : PRRow) else p)).find?
      (fun p => p.pullRequestID = pr.pullRequestID) = some (rowOf pr) := by
  induction prs with
  | nil => simp at hex
  | cons q qs ih =>
    by_cases hq : q.pullRequestID = pr.pullRequestID
    · simp [List.find?_cons, hq, rowOf]
    · rw [List.find?_cons_of_neg _ (by simpa using hq)] at hex
      simpa [List.find?_cons, hq] using ih hex

/-- What a successful reviewer re-insertion loop did: appended one link
per ID, touching nothing else. -/
theorem updateReviewersLoop_out (prID : String) : ∀ (L : List String) (st0 st' : Storage),
    updateReviewersLoop prID L st0 = .ok st' →
    st'.teams = st0.teams ∧ st'.users = st0.users ∧ st'.prs = st0.prs ∧
    st'.failUpsert = st0.failUpsert ∧
    st'.reviewers = st0.reviewers ++ L.map (fun uid => (prID, uid))
  | [], st0, st', h => by
    cases h
    simp
  | uid :: rest, st0, st', h => by
    unfold updateReviewersLoop at h
    cases hI : insertReviewerRow st0 prID uid with
    | error e => rw [hI] at h; cases h
    | ok st1 =>
      rw [hI] at h
      have hfacts : st1.teams = st0.teams ∧ st1.users = st0.users ∧ st1.prs = st0.prs ∧
          st1.failUpsert = st0.failUpsert ∧
          st1.reviewers = st0.reviewers ++ [(prID, uid)] := by
        unfold insertReviewerRow at hI
        split at hI
        · cases hI
        · split at hI
          · split at hI
            · cases hI
              exact ⟨rfl, rfl, rfl, rfl, rfl⟩
            · cases hI
          · cases hI
      obtain ⟨h1, h2, h3, h4, h5⟩ := updateReviewersLoop_out prID rest st1 st' h
      refine ⟨h1.trans hfacts.1, h2.trans hfacts.2.1, h3.trans hfacts.2.2.1,
        h4.trans hfacts.2.2.2.1, ?_⟩
      rw [h5, hfacts.2.2.2.2]
      simp

/-- What a successful UpdatePullRequest did: rewrote the matching row's
scalar fields and replaced the PR's reviewer links by the given list. -/
theorem updatePullRequest_out {st st' : Storage} {pr : PullRequest}
    (h : st.UpdatePullRequest pr = .ok st') :
    st'.teams = st.teams ∧ st'.users = st.users ∧ st'.failUpsert = st.failUpsert ∧
    st'.prs = st.prs.map (fun p =>
      if p.pullRequestID = pr.pullRequestID then
        (⟨p.pullRequestID, pr.pullRequestName, pr.authorID, pr.status, pr.createdAt,
          pr.mergedAt⟩ : PRRow) else p) ∧
    st'.reviewers = st.reviewers.filter (fun rv => !(rv.1 == pr.pullRequestID)) ++
      pr.assignedReviewers.map (fun uid => (pr.pullRequestID, uid)) := by
  unfold Storage.UpdatePullRequest at h
  split at h
  · cases h
  · obtain ⟨h1, h2, h3, h4, h5⟩ := updateReviewersLoop_out pr.pullRequestID
      pr.assignedReviewers _ st' h
    exact ⟨h1, h2, h4, h3, h5⟩

/-- After a successful update carrying an ordered reviewer list, an
immediate fetch returns exactly the updated pull request. -/
theorem getPullRequest_after_update {st st' : Storage} {pr pr1 : PullRequest} {id : String}
    (hget : st.GetPullRequest id = .ok pr)
    (hid : pr1.pullRequestID = id)
    (hsorted : List.Sorted strLeRel pr1.assignedReviewers)
    (hupd : st.UpdatePullRequest pr1 = .ok st') :
    st'.GetPullRequest id = .ok pr1 := by
  subst hid
  obtain ⟨-, -, -, hprs, hrev⟩ := updatePullRequest_out hupd
  obtain ⟨hfind, -⟩ := getPullRequest_ok hget
  have hrevs : Storage.ListReviewersByPR st' pr1.pullRequestID = pr1.assignedReviewers := by
    unfold Storage.ListReviewersByPR
    rw [hrev, List.filter_append]
    have e1 : (List.filter (fun rv => rv.1 = pr1.pullRequestID)
        (st.reviewers.filter (fun rv => !(rv.1 == pr1.pullRequestID)))) = [] := by
      rw [List.filter_eq_nil_iff]
      intro rv hrv
      rw [List.mem_filter] at hrv
      simp only [Bool.not_eq_true', beq_eq_false_iff_ne] at hrv
      simp only [decide_eq_true_eq]
      exact hrv.2
    have e2 : (List.filter (fun rv => rv.1 = pr1.pullRequestID)
        (pr1.assignedReviewers.map (fun uid => (pr1.pullRequestID, uid)))) =
        pr1.assignedReviewers.map (fun uid => (pr1.pullRequestID, uid)) := by
      rw [List.filter_eq_self]
      intro rv hrv
      rw [List.mem_map] at hrv
      obtain ⟨uid, -, huid⟩ := hrv
      simp [← huid]
    rw [e1, e2, List.nil_append, List.map_map]
    have e3 : pr1.assignedReviewers.map ((fun rv : String × String => rv.2) ∘
        (fun uid => (pr1.pullRequestID, uid))) = pr1.assignedReviewers := by
      simp [Function.comp]
    rw [e3]
    exact sortByUserId_of_sorted hsorted
  unfold Storage.GetPullRequest
  rw [hprs, find?_update_rows st.prs pr1 (rowOf pr) hfind]
  dsimp only
  rw [hrevs]
  rfl


/-- C2: merging an already-merged PR succeeds, returns the stored state
(mergedAt included) with no write; consequently any successful merge
followed by a second merge returns the identical result and state. -/
theorem c2_merge_idempotent :
    (∀ (st : Storage) (prID : String) (pr : PullRequest) (now : Nat),
      st.GetPullRequest prID = .ok pr → pr.status = .MERGED →
      Service.MergePullRequest st prID now = (.ok ⟨pr⟩, st)) ∧
    (∀ (st st1 : Storage) (prID : String) (resp : PullRequestResponse) (now now2 : Nat),
      Service.MergePullRequest st prID now = (.ok resp, st1) →
      Service.MergePullRequest st1 prID now2 = (.ok resp, st1)) := by
  constructor
  · intro st prID pr now hget hm
    unfold Service.MergePullRequest
    rw [hget]
    dsimp only
    rw [if_pos hm]
  · intro st st1 prID resp now now2 hrun
    unfold Service.MergePullRequest at hrun ⊢
    cases hget : st.GetPullRequest prID with
    | error e => rw [hget] at hrun; simp at hrun
    | ok pr =>
      rw [hget] at hrun
      dsimp only at hrun
      by_cases hm : pr.status = .MERGED
      · rw [if_pos hm] at hrun
        simp only [Prod.mk.injEq, Except.ok.injEq] at hrun
        obtain ⟨h1, h2⟩ := hrun
        subst h1; subst h2
        rw [hget]
        dsimp only
        rw [if_pos hm]
      · rw [if_neg hm] at hrun
        cases hupd : st.UpdatePullRequest { pr with status := PRStatus.MERGED, mergedAt := now } with
        | error e => rw [hupd] at hrun; dsimp only at hrun; simp at hrun
        | ok st2 =>
          rw [hupd] at hrun
          dsimp only at hrun
          simp only [Prod.mk.injEq, Except.ok.injEq] at hrun
          obtain ⟨h1, h2⟩ := hrun
          subst h1; subst h2
          have hs : List.Sorted strLeRel pr.assignedReviewers := getPullRequest_sorted hget
          have hget2 : st2.GetPullRequest prID =
              .ok { pr with status := PRStatus.MERGED, mergedAt := now } :=
            getPullRequest_after_update hget (by simp [getPullRequest_ok_id hget]) hs hupd
          rw [hget2]
          dsimp only
          rw [if_pos (by simp)]

/-- Witness for C2: both parts at a concrete merged pull request. -/
theorem c2_witness :
    Service.MergePullRequest
        ⟨["core"], [], [⟨"pr1", "fix", "A", .MERGED, 100, 200⟩],
          [("pr1", "C"), ("pr1", "D")], []⟩ "pr1" 300 =
      (.ok ⟨⟨"pr1", "fix", "A", .MERGED, ["C", "D"], 100, 200⟩⟩,
        ⟨["core"], [], [⟨"pr1", "fix", "A", .MERGED, 100, 200⟩],
          [("pr1", "C"), ("pr1", "D")], []⟩) ∧
    Service.MergePullRequest
        ⟨["core"], [], [⟨"pr1", "fix", "A", .MERGED, 100, 200⟩],
          [("pr1", "C"), ("pr1", "D")], []⟩ "pr1" 301 =
      (.ok ⟨⟨"pr1", "fix", "A", .MERGED, ["C", "D"], 100, 200⟩⟩,
        ⟨["core"], [], [⟨"pr1", "fix", "A", .MERGED, 100, 200⟩],
          [("pr1", "C"), ("pr1", "D")], []⟩) :=
  ⟨c2_merge_idempotent.1 _ "pr1" _ 300 (by rfl) (by decide),
    c2_merge_idempotent.2 _ _ "pr1" _ 300 301
      (c2_merge_idempotent.1 _ "pr1" _ 300 (by rfl) (by decide))⟩

/-- C4: reassigning on a merged PR fails with PR_MERGED and leaves the
store (the PR's reviewers and all other fields) and the random source
untouched. -/
theorem c4_reassign_merged_fails (st : Storage) (r : Rng) (prID oldUserID : String)
    (pr : PullRequest) (hget : st.GetPullRequest prID = .ok pr)
    (hm : pr.status = .MERGED) :
    Service.ReassignReviewer st r prID oldUserID =
      ((.error (errWithCode ErrorCodePRMerged "cannot reassign on merged PR"), st), r) := by
  unfold Service.ReassignReviewer
  rw [hget]
  dsimp only
  rw [if_pos hm]

/-- Witness for C4 at a concrete merged pull request. -/
theorem c4_witness :
    Service.ReassignReviewer
        ⟨["core"], [], [⟨"pr1", "fix", "A", .MERGED, 100, 200⟩],
          [("pr1", "C"), ("pr1", "D")], []⟩ ⟨fun _ => 0, 0⟩ "pr1" "C" =
      ((.error (errWithCode ErrorCodePRMerged "cannot reassign on merged PR"),
        ⟨["core"], [], [⟨"pr1", "fix", "A", .MERGED, 100, 200⟩],
          [("pr1", "C"), ("pr1", "D")], []⟩), ⟨fun _ => 0, 0⟩) :=
  c4_reassign_merged_fails _ _ "pr1" "C" ⟨"pr1", "fix", "A", .MERGED, ["C", "D"], 100, 200⟩
    (by rfl) (by decide)

/-- Counterexample to C3 as stated: on a merged PR whose reviewer set
does not contain "X", ReassignReviewer returns the PR_MERGED error, not
the NOT_ASSIGNED one — the merged-status check runs first. -/
theorem c3_counterexample :
    (Storage.GetPullRequest
        ⟨["core"], [], [⟨"pr1", "fix", "A", .MERGED, 100, 200⟩],
          [("pr1", "C"), ("pr1", "D")], []⟩ "pr1" =
      .ok ⟨"pr1", "fix", "A", .MERGED, ["C", "D"], 100, 200⟩) ∧
    ("X" ∈ (PullRequest.assignedReviewers ⟨"pr1", "fix", "A", .MERGED, ["C", "D"], 100, 200⟩) →
      False) ∧
    resultCode (Service.ReassignReviewer
        ⟨["core"], [], [⟨"pr1", "fix", "A", .MERGED, 100, 200⟩],
          [("pr1", "C"), ("pr1", "D")], []⟩ ⟨fun _ => 0, 0⟩ "pr1" "X").1.1 =
      ErrorCodePRMerged ∧
    ErrorCodePRMerged ≠ ErrorCodeNotAssigned := by
  refine ⟨by rfl, by decide, ?_, by decide⟩
  rw [c4_reassign_merged_fails _ _ "pr1" "X" ⟨"pr1", "fix", "A", .MERGED, ["C", "D"], 100, 200⟩
    (by rfl) (by decide)]
  decide

/-- C3 amended: for an existing OPEN pull request, reassigning a reviewer
that is not in the assigned set fails with NOT_ASSIGNED and changes
nothing; on a MERGED pull request the merged-status check fires first,
failing with PR_MERGED instead. -/
theorem c3_not_assigned_open (st : Storage) (r : Rng) (prID oldUserID : String)
    (pr : PullRequest) (hget : st.GetPullRequest prID = .ok pr)
    (hopen : pr.status = .OPEN)
    (hmem : oldUserID ∉ pr.assignedReviewers) :
    Service.ReassignReviewer st r prID oldUserID =
      ((.error (errWithCode ErrorCodeNotAssigned "reviewer is not assigned to this PR"),
        st), r) := by
  unfold Service.ReassignReviewer
  rw [hget]
  dsimp only
  rw [if_neg (by rw [hopen]; intro h; cases h)]
  have hidx : pr.assignedReviewers.findIdx? (fun id => id == oldUserID) = none := by
    rw [List.findIdx?_eq_none_iff]
    intro x hx
    exact beq_eq_false_iff_ne.mpr (fun he => hmem (he ▸ hx))
  rw [hidx]

/-- Witness for the amended C3 at a concrete open pull request. -/
theorem c3_witness :
    Service.ReassignReviewer
        ⟨["core"], [], [⟨"pr1", "fix", "A", .OPEN, 100, 0⟩],
          [("pr1", "C"), ("pr1", "D")], []⟩ ⟨fun _ => 0, 0⟩ "pr1" "X" =
      ((.error (errWithCode ErrorCodeNotAssigned "reviewer is not assigned to this PR"),
        ⟨["core"], [], [⟨"pr1", "fix", "A", .OPEN, 100, 0⟩],
          [("pr1", "C"), ("pr1", "D")], []⟩), ⟨fun _ => 0, 0⟩) :=
  c3_not_assigned_open _ _ "pr1" "X" ⟨"pr1", "fix", "A", .OPEN, ["C", "D"], 100, 0⟩
    (by rfl) (by decide) (by decide)

/-- C6: a successful reassignment returns the previous reviewer list with
only the slot at the old reviewer's (first-match) index overwritten by
the returned replaced-by ID, every other slot and every non-reviewer
field unchanged. -/
theorem c6_reassign_replaces_slot (st st1 : Storage) (r r1 : Rng)
    (prID oldUserID newR : String) (pr prOut : PullRequest)
    (hget : st.GetPullRequest prID = .ok pr)
    (hrun : Service.ReassignReviewer st r prID oldUserID = ((.ok (prOut, newR), st1), r1)) :
    ∃ i, pr.assignedReviewers.findIdx? (fun id => id == oldUserID) = some i ∧
      pr.assignedReviewers[i]? = some oldUserID ∧
      prOut.assignedReviewers = pr.assignedReviewers.set i newR ∧
      (∀ j, j ≠ i → prOut.assignedReviewers[j]? = pr.assignedReviewers[j]?) ∧
      prOut.pullRequestID = pr.pullRequestID ∧
      prOut.pullRequestName = pr.pullRequestName ∧
      prOut.authorID = pr.authorID ∧
      prOut.status = pr.status ∧
      prOut.createdAt = pr.createdAt ∧
      prOut.mergedAt = pr.mergedAt := by
  unfold Service.ReassignReviewer at hrun
  rw [hget] at hrun
  dsimp only at hrun
  split at hrun
  · exact absurd hrun (by simp)
  · split at hrun
    · exact absurd hrun (by simp)
    · rename_i found hidx
      split at hrun
      · exact absurd hrun (by simp)
      · rename_i oldUser huser
        split at hrun
        · exact absurd hrun (by simp)
        · rename_i team hteam
          split at hrun
          · exact absurd hrun (by simp)
          · split at hrun
            · exact absurd hrun (by simp)
            · rename_i st2 hupd
              simp only [Prod.mk.injEq, Except.ok.injEq] at hrun
              obtain ⟨⟨⟨h1, h2⟩, h3⟩, h4⟩ := hrun
              subst h1; subst h2
              obtain ⟨hlt, hfi⟩ := List.findIdx?_eq_some_iff_findIdx_eq.mp hidx
              refine ⟨found, hidx, ?_, by simp, ?_, by simp, by simp, by simp,
                by simp, by simp, by simp⟩
              · rw [List.getElem?_eq_getElem hlt]
                have hw : List.findIdx (fun id => id == oldUserID) pr.assignedReviewers <
                    pr.assignedReviewers.length := hfi ▸ hlt
                have := @List.findIdx_getElem _ (fun id => id == oldUserID)
                  pr.assignedReviewers hw
                simp only [hfi] at this
                simpa using this
              · intro j hj
                simp [List.getElem?_set_ne (Ne.symm hj)]

/-! ### Success conditions for the reviewer-table writes -/

theorem contains_false_not_mem {l : List String} {x : String}
    (h : l.contains x = false) : x ∉ l := by
  intro hx
  rw [List.contains_eq_any_beq, List.any_eq_false] at h
  exact h x hx (by simp)

theorem nodup_set_of_not_mem {α : Type} : ∀ (l : List α) (i : Nat) (a : α),
    l.Nodup → a ∉ l → (l.set i a).Nodup
  | [], _, _, _, _ => List.nodup_nil
  | x :: xs, 0, a, hnd, ha => by
    rw [List.set_cons_zero]
    rw [List.nodup_cons] at hnd ⊢
    exact ⟨fun h => ha (List.mem_cons_of_mem x h), hnd.2⟩
  | x :: xs, i + 1, a, hnd, ha => by
    rw [List.set_cons_succ]
    rw [List.nodup_cons] at hnd ⊢
    refine ⟨?_, nodup_set_of_not_mem xs i a hnd.2 (fun h => ha (List.mem_cons_of_mem x h))⟩
    intro hx
    rcases List.mem_or_eq_of_mem_set hx with h | h
    · exact hnd.1 h
    · exact ha (by rw [h]; exact List.mem_cons_self a xs)

/-- ORDER BY selects each link once: with the composite primary key the
reviewer list of a PR has no duplicate IDs. -/
theorem listReviewersByPR_nodup {st : Storage} (hrevN : st.reviewers.Nodup) (id : String) :
    (st.ListReviewersByPR id).Nodup := by
  unfold Storage.ListReviewersByPR
  refine ((sortByUserId_perm _).nodup_iff).mpr ?_
  refine List.Nodup.map_on ?_ ((List.filter_sublist _).nodup hrevN)
  intro x hx y hy hxy
  rw [List.mem_filter] at hx hy
  have hx1 : x.1 = id := by simpa using hx.2
  have hy1 : y.1 = id := by simpa using hy.2
  exact Prod.ext (hx1.trans hy1.symm) hxy

/-- Every listed reviewer of a PR is backed by a user row (reviewers
user_id foreign key). -/
theorem listReviewersByPR_users {st : Storage}
    (hfk : ∀ rv ∈ st.reviewers, ∃ u ∈ st.users, u.userID = rv.2) (id : String) :
    ∀ uid ∈ st.ListReviewersByPR id, ∃ u ∈ st.users, u.userID = uid := by
  intro uid huid
  unfold Storage.ListReviewersByPR at huid
  rw [(sortByUserId_perm _).mem_iff, List.mem_map] at huid
  obtain ⟨rv, hrv, hrveq⟩ := huid
  obtain ⟨u, hu, hueq⟩ := hfk rv (List.mem_filter.mp hrv).1
  exact ⟨u, hu, by rw [hueq, hrveq]⟩

/-- The reviewer re-insertion loop succeeds when the IDs are distinct,
each is a user, the PR row exists and no link for the PR collides. -/
theorem updateReviewersLoop_ok (prID : String) : ∀ (L : List String) (st0 : Storage),
    L.Nodup →
    (∀ uid ∈ L, ∃ u ∈ st0.users, u.userID = uid) →
    (st0.prs.any fun p => p.pullRequestID = prID) = true →
    (∀ rv ∈ st0.reviewers, rv.1 = prID → rv.2 ∉ L) →
    ∃ st', updateReviewersLoop prID L st0 = .ok st'
  | [], st0, _, _, _, _ => ⟨st0, rfl⟩
  | uid :: rest, st0, hnd, hus, hpr, hinv => by
    have hfresh : (prID, uid) ∉ st0.reviewers := fun hmem =>
      hinv (prID, uid) hmem rfl (List.mem_cons_self uid rest)
    have huid : (st0.users.any fun u => u.userID = uid) = true := by
      rw [List.any_eq_true]
      obtain ⟨u, hu, hueq⟩ := hus uid (List.mem_cons_self uid rest)
      exact ⟨u, hu, by simp [hueq]⟩
    have hins : insertReviewerRow st0 prID uid = .ok
        { st0 with reviewers := st0.reviewers ++ [(prID, uid)] } := by
      unfold insertReviewerRow
      rw [if_neg hfresh, if_pos hpr, if_pos huid]
    rw [List.nodup_cons] at hnd
    obtain ⟨st', hst'⟩ := updateReviewersLoop_ok prID rest
      { st0 with reviewers := st0.reviewers ++ [(prID, uid)] }
      hnd.2
      (fun v hv => hus v (List.mem_cons_of_mem uid hv))
      hpr
      (by
        intro rv hrv h1 h2
        rcases List.mem_append.mp hrv with hrv | hrv
        · exact hinv rv hrv h1 (List.mem_cons_of_mem uid h2)
        · rw [List.mem_singleton] at hrv
          subst hrv
          exact hnd.1 h2)
    refine ⟨st', ?_⟩
    unfold updateReviewersLoop
    rw [hins]
    exact hst'

/-- UpdatePullRequest succeeds when the row exists, the author is a user
and the reviewer list is duplicate-free and backed by user rows. -/
theorem updatePullRequest_ok (st : Storage) (pr : PullRequest)
    (hrow : (st.prs.any fun p => p.pullRequestID = pr.pullRequestID) = true)
    (hauthor : (st.users.any fun u => u.userID = pr.authorID) = true)
    (hnd : pr.assignedReviewers.Nodup)
    (hus : ∀ uid ∈ pr.assignedReviewers, ∃ u ∈ st.users, u.userID = uid) :
    ∃ st', st.UpdatePullRequest pr = .ok st' := by
  unfold Storage.UpdatePullRequest
  rw [if_neg (by simp [hauthor])]
  refine updateReviewersLoop_ok pr.pullRequestID pr.assignedReviewers _ hnd hus ?_ ?_
  · rw [List.any_eq_true] at hrow ⊢
    obtain ⟨p, hp, hpid⟩ := hrow
    simp only [decide_eq_true_eq] at hpid
    refine ⟨if p.pullRequestID = pr.pullRequestID then
        ⟨p.pullRequestID, pr.pullRequestName, pr.authorID, pr.status, pr.createdAt,
          pr.mergedAt⟩ else p, List.mem_map_of_mem _ hp, ?_⟩
    rw [if_pos hpid]
    simpa using hpid
  · intro rv hrv h1
    rw [List.mem_filter] at hrv
    simp only [Bool.not_eq_true', beq_eq_false_iff_ne] at hrv
    exact absurd h1 hrv.2

/-- A reassignment on a well-formed store runs to success when the PR is
open, the old reviewer is assigned at index found, their user and team
rows load and the candidate pool is not empty: the drawn candidate
replaces the slot, the Rng advances one step, and UpdatePullRequest
succeeds because the new list stays duplicate-free and user-backed. -/
theorem reassign_run_nonempty (st : Storage) (r : Rng) (prID oldUserID : String)
    (pr : PullRequest) (oldUser : User) (team : Team) (found : Nat)
    (hwf : st.WF)
    (hget : st.GetPullRequest prID = .ok pr)
    (hopen : pr.status = .OPEN)
    (hidx : pr.assignedReviewers.findIdx? (fun id => id == oldUserID) = some found)
    (huser : st.GetUser oldUserID = .ok oldUser)
    (hteam : st.GetTeam oldUser.teamName = .ok team)
    (hne : reassignCandidates team pr oldUserID ≠ []) :
    ∃ st1, Service.ReassignReviewer st r prID oldUserID =
      ((.ok ({ pr with assignedReviewers :=
          pr.assignedReviewers.set found (reassignDraw team pr oldUserID r).userID },
        (reassignDraw team pr oldUserID r).userID), st1), ⟨r.stream, r.cursor + 1⟩) := by
  have hlen : (reassignCandidates team pr oldUserID).length ≠ 0 := by
    simpa [List.length_eq_zero] using hne
  have hmod : r.stream r.cursor % (reassignCandidates team pr oldUserID).length <
      (reassignCandidates team pr oldUserID).length := Nat.mod_lt _ (Nat.pos_of_ne_zero hlen)
  have hdm : reassignDraw team pr oldUserID r ∈ reassignCandidates team pr oldUserID := by
    unfold reassignDraw
    rw [List.getD_eq_getElem?_getD, List.getElem?_eq_getElem hmod]
    exact List.getElem_mem hmod
  have hdmf := hdm
  unfold reassignCandidates at hdmf
  have hdmMem : reassignDraw team pr oldUserID r ∈ team.members := (List.mem_filter.mp hdmf).1
  have hpred := (List.mem_filter.mp hdmf).2
  simp only [Bool.and_eq_true, Bool.not_eq_true'] at hpred
  have hnotex : (reassignDraw team pr oldUserID r).userID ∉ reassignExclude pr oldUserID :=
    contains_false_not_mem hpred.2
  have hnotrev : (reassignDraw team pr oldUserID r).userID ∉ pr.assignedReviewers := by
    intro hx
    refine hnotex ?_
    unfold reassignExclude
    exact List.mem_cons_of_mem _ (List.mem_append_left _ hx)
  have hfind := (getPullRequest_ok hget).1
  have hrow : (st.prs.any fun p => p.pullRequestID = pr.pullRequestID) = true := by
    rw [List.any_eq_true]
    exact ⟨rowOf pr, List.mem_of_find?_eq_some hfind, by simp [rowOf]⟩
  have hauthor : (st.users.any fun u => u.userID = pr.authorID) = true := by
    rw [List.any_eq_true]
    obtain ⟨u, hu, hueq⟩ := hwf.prAuthorFK (rowOf pr) (List.mem_of_find?_eq_some hfind)
    refine ⟨u, hu, ?_⟩
    simp only [decide_eq_true_eq]
    exact hueq
  have hL := (getPullRequest_ok hget).2
  have hLnd : pr.assignedReviewers.Nodup := by
    rw [hL]
    exact listReviewersByPR_nodup hwf.reviewersNodup prID
  have hLus : ∀ uid ∈ pr.assignedReviewers, ∃ u ∈ st.users, u.userID = uid := by
    rw [hL]
    exact listReviewersByPR_users hwf.reviewerUserFK prID
  have hnd2 : (pr.assignedReviewers.set found
      (reassignDraw team pr oldUserID r).userID).Nodup :=
    nodup_set_of_not_mem _ found _ hLnd hnotrev
  have hus2 : ∀ uid ∈ pr.assignedReviewers.set found (reassignDraw team pr oldUserID r).userID,
      ∃ u ∈ st.users, u.userID = uid := by
    intro uid huid
    rcases List.mem_or_eq_of_mem_set huid with h | h
    · exact hLus uid h
    · subst h
      exact getTeam_member_user hteam _ hdmMem
  obtain ⟨stX, hupd⟩ := updatePullRequest_ok st
    { pr with assignedReviewers :=
        pr.assignedReviewers.set found (reassignDraw team pr oldUserID r).userID }
    hrow hauthor hnd2 hus2
  refine ⟨stX, ?_⟩
  unfold Service.ReassignReviewer
  rw [hget]
  dsimp only
  rw [if_neg (by rw [hopen]; intro h; cases h)]
  rw [hidx]
  dsimp only
  rw [huser]
  dsimp only
  rw [hteam]
  dsimp only
  rw [if_neg hlen]
  dsimp only [Rng.intn]
  unfold reassignDraw at hupd
  rw [hupd]
  exact rfl

/-- C5: on a well-formed store, for an open PR with the old reviewer
assigned, the replacement pool is exactly the active members of the old
reviewer's team that are neither the author, nor the old reviewer, nor
any assigned reviewer; an empty pool fails with NO_CANDIDATE and writes
nothing, otherwise the replacement is a member of the pool. -/
theorem c5_reassign_pool (st : Storage) (r : Rng) (prID oldUserID : String)
    (pr : PullRequest) (oldUser : User) (team : Team)
    (hwf : st.WF)
    (hget : st.GetPullRequest prID = .ok pr)
    (hopen : pr.status = .OPEN)
    (hmem : oldUserID ∈ pr.assignedReviewers)
    (huser : st.GetUser oldUserID = .ok oldUser)
    (hteam : st.GetTeam oldUser.teamName = .ok team) :
    (∀ m, m ∈ reassignCandidates team pr oldUserID ↔
      m ∈ team.members ∧ m.isActive = true ∧ m.userID ≠ pr.authorID ∧
      m.userID ≠ oldUserID ∧ m.userID ∉ pr.assignedReviewers) ∧
    (reassignCandidates team pr oldUserID = [] →
      Service.ReassignReviewer st r prID oldUserID =
        ((.error (errWithCode ErrorCodeNoCandidate "no active replacement candidate in team"),
          st), r)) ∧
    (reassignCandidates team pr oldUserID ≠ [] →
      ∃ m, m ∈ reassignCandidates team pr oldUserID ∧ ∃ prOut st1 r1,
        Service.ReassignReviewer st r prID oldUserID =
          ((.ok (prOut, m.userID), st1), r1)) := by
  have hidx : pr.assignedReviewers.findIdx? (fun id => id == oldUserID) =
      some (pr.assignedReviewers.findIdx (fun id => id == oldUserID)) :=
    List.findIdx?_eq_some_of_exists ⟨oldUserID, hmem, beq_self_eq_true oldUserID⟩
  refine ⟨?_, ?_, ?_⟩
  · intro m
    unfold reassignCandidates reassignExclude
    simp [List.mem_filter, not_or]
    tauto
  · intro hempty
    unfold Service.ReassignReviewer
    rw [hget]
    dsimp only
    rw [if_neg (by rw [hopen]; intro h; cases h)]
    rw [hidx]
    dsimp only
    rw [huser]
    dsimp only
    rw [hteam]
    dsimp only
    rw [if_pos (by rw [hempty]; rfl)]
  · intro hne
    have hlen : 0 < (reassignCandidates team pr oldUserID).length :=
      List.length_pos.mpr hne
    have hmod : r.stream r.cursor % (reassignCandidates team pr oldUserID).length <
        (reassignCandidates team pr oldUserID).length := Nat.mod_lt _ hlen
    obtain ⟨st1, hrun⟩ := reassign_run_nonempty st r prID oldUserID pr oldUser team
      (pr.assignedReviewers.findIdx (fun id => id == oldUserID))
      hwf hget hopen hidx huser hteam hne
    refine ⟨reassignDraw team pr oldUserID r, ?_, _, st1, _, hrun⟩
    unfold reassignDraw
    rw [List.getD_eq_getElem?_getD, List.getElem?_eq_getElem hmod]
    exact List.getElem_mem hmod

/-- Witness for C5 at a concrete open PR: pool = {B} (author A and old
reviewer C excluded; E inactive), draw succeeds. -/
theorem c5_witness :
    (∀ m, m ∈ reassignCandidates
        ⟨"core", [⟨"A", "a", true⟩, ⟨"B", "b", true⟩, ⟨"C", "c", true⟩, ⟨"E", "e", false⟩]⟩
        ⟨"pr1", "fix", "A", .OPEN, ["C"], 100, 0⟩ "C" ↔
      m ∈ Team.members
        ⟨"core", [⟨"A", "a", true⟩, ⟨"B", "b", true⟩, ⟨"C", "c", true⟩, ⟨"E", "e", false⟩]⟩ ∧
      m.isActive = true ∧
      m.userID ≠ PullRequest.authorID ⟨"pr1", "fix", "A", .OPEN, ["C"], 100, 0⟩ ∧
      m.userID ≠ "C" ∧
      m.userID ∉ PullRequest.assignedReviewers ⟨"pr1", "fix", "A", .OPEN, ["C"], 100, 0⟩) ∧
    (reassignCandidates
        ⟨"core", [⟨"A", "a", true⟩, ⟨"B", "b", true⟩, ⟨"C", "c", true⟩, ⟨"E", "e", false⟩]⟩
        ⟨"pr1", "fix", "A", .OPEN, ["C"], 100, 0⟩ "C" = [] →
      Service.ReassignReviewer
        ⟨["core"],
          [⟨"A", "a", "core", true⟩, ⟨"B", "b", "core", true⟩, ⟨"C", "c", "core", true⟩,
            ⟨"E", "e", "core", false⟩],
          [⟨"pr1", "fix", "A", .OPEN, 100, 0⟩], [("pr1", "C")], []⟩ ⟨fun _ => 0, 0⟩ "pr1" "C" =
        ((.error (errWithCode ErrorCodeNoCandidate "no active replacement candidate in team"),
          ⟨["core"],
            [⟨"A", "a", "core", true⟩, ⟨"B", "b", "core", true⟩, ⟨"C", "c", "core", true⟩,
              ⟨"E", "e", "core", false⟩],
            [⟨"pr1", "fix", "A", .OPEN, 100, 0⟩], [("pr1", "C")], []⟩), ⟨fun _ => 0, 0⟩)) ∧
    (reassignCandidates
        ⟨"core", [⟨"A", "a", true⟩, ⟨"B", "b", true⟩, ⟨"C", "c", true⟩, ⟨"E", "e", false⟩]⟩
        ⟨"pr1", "fix", "A", .OPEN, ["C"], 100, 0⟩ "C" ≠ [] →
      ∃ m, m ∈ reassignCandidates
          ⟨"core", [⟨"A", "a", true⟩, ⟨"B", "b", true⟩, ⟨"C", "c", true⟩, ⟨"E", "e", false⟩]⟩
          ⟨"pr1", "fix", "A", .OPEN, ["C"], 100, 0⟩ "C" ∧ ∃ prOut st1 r1,
        Service.ReassignReviewer
          ⟨["core"],
            [⟨"A", "a", "core", true⟩, ⟨"B", "b", "core", true⟩, ⟨"C", "c", "core", true⟩,
              ⟨"E", "e", "core", false⟩],
            [⟨"pr1", "fix", "A", .OPEN, 100, 0⟩], [("pr1", "C")], []⟩ ⟨fun _ => 0, 0⟩ "pr1" "C" =
          ((.ok (prOut, m.userID), st1), r1)) :=
  c5_reassign_pool
    ⟨["core"],
      [⟨"A", "a", "core", true⟩, ⟨"B", "b", "core", true⟩, ⟨"C", "c", "core", true⟩,
        ⟨"E", "e", "core", false⟩],
      [⟨"pr1", "fix", "A", .OPEN, 100, 0⟩], [("pr1", "C")], []⟩ ⟨fun _ => 0, 0⟩ "pr1" "C"
    ⟨"pr1", "fix", "A", .OPEN, ["C"], 100, 0⟩ ⟨"C", "c", "core", true⟩
    ⟨"core", [⟨"A", "a", true⟩, ⟨"B", "b", true⟩, ⟨"C", "c", true⟩, ⟨"E", "e", false⟩]⟩
    (by constructor <;> decide) (by rfl) (by decide) (by decide) (by rfl) (by rfl)

/-- Witness for C6: the concrete reassignment "C" to "B" replaces slot
zero and keeps slot one and all scalar fields. -/
theorem c6_witness :
    ∃ i, (PullRequest.assignedReviewers ⟨"pr1", "fix", "A", .OPEN, ["C", "D"], 100, 0⟩).findIdx?
        (fun id => id == "C") = some i ∧
      (PullRequest.assignedReviewers ⟨"pr1", "fix", "A", .OPEN, ["C", "D"], 100, 0⟩)[i]? =
        some "C" ∧
      (PullRequest.assignedReviewers
          ⟨"pr1", "fix", "A", .OPEN, ["B", "D"], 100, 0⟩) =
        (PullRequest.assignedReviewers ⟨"pr1", "fix", "A", .OPEN, ["C", "D"], 100, 0⟩).set i
          "B" ∧
      (∀ j, j ≠ i →
        (PullRequest.assignedReviewers ⟨"pr1", "fix", "A", .OPEN, ["B", "D"], 100, 0⟩)[j]? =
        (PullRequest.assignedReviewers ⟨"pr1", "fix", "A", .OPEN, ["C", "D"], 100, 0⟩)[j]?) ∧
      PullRequest.pullRequestID ⟨"pr1", "fix", "A", .OPEN, ["B", "D"], 100, 0⟩ =
        PullRequest.pullRequestID ⟨"pr1", "fix", "A", .OPEN, ["C", "D"], 100, 0⟩ ∧
      PullRequest.pullRequestName ⟨"pr1", "fix", "A", .OPEN, ["B", "D"], 100, 0⟩ =
        PullRequest.pullRequestName ⟨"pr1", "fix", "A", .OPEN, ["C", "D"], 100, 0⟩ ∧
      PullRequest.authorID ⟨"pr1", "fix", "A", .OPEN, ["B", "D"], 100, 0⟩ =
        PullRequest.authorID ⟨"pr1", "fix", "A", .OPEN, ["C", "D"], 100, 0⟩ ∧
      PullRequest.status ⟨"pr1", "fix", "A", .OPEN, ["B", "D"], 100, 0⟩ =
        PullRequest.status ⟨"pr1", "fix", "A", .OPEN, ["C", "D"], 100, 0⟩ ∧
      PullRequest.createdAt ⟨"pr1", "fix", "A", .OPEN, ["B", "D"], 100, 0⟩ =
        PullRequest.createdAt ⟨"pr1", "fix", "A", .OPEN, ["C", "D"], 100, 0⟩ ∧
      PullRequest.mergedAt ⟨"pr1", "fix", "A", .OPEN, ["B", "D"], 100, 0⟩ =
        PullRequest.mergedAt ⟨"pr1", "fix", "A", .OPEN, ["C", "D"], 100, 0⟩ :=
  c6_reassign_replaces_slot
    ⟨["core"],
      [⟨"A", "a", "core", true⟩, ⟨"B", "b", "core", true⟩, ⟨"C", "c", "core", true⟩,
        ⟨"D", "d", "core", true⟩],
      [⟨"pr1", "fix", "A", .OPEN, 100, 0⟩], [("pr1", "C"), ("pr1", "D")], []⟩
    _ ⟨fun _ => 0, 0⟩ _ "pr1" "C" "B"
    ⟨"pr1", "fix", "A", .OPEN, ["C", "D"], 100, 0⟩
    ⟨"pr1", "fix", "A", .OPEN, ["B", "D"], 100, 0⟩ (by rfl) (by rfl)

/-- C1: with user rows keyed by distinct IDs, every PR returned by a
successful CreatePullRequest — whatever the membership and the random
stream — has at most two reviewers, no duplicate reviewer IDs, never the
author, only active members of the author's team, and status OPEN. -/
theorem c1_create_invariants (st st1 : Storage) (r r1 : Rng)
    (req : CreatePullRequestRequest) (now : Nat) (resp : PullRequestResponse)
    (hnodup : (st.users.map (fun u => u.userID)).Nodup)
    (hrun : Service.CreatePullRequest st r req now = ((.ok resp, st1), r1)) :
    resp.pr.assignedReviewers.length ≤ 2 ∧
    resp.pr.assignedReviewers.Nodup ∧
    resp.pr.authorID ∉ resp.pr.assignedReviewers ∧
    (∃ author team, st.GetUser req.authorID = .ok author ∧
      st.GetTeam author.teamName = .ok team ∧
      ∀ rid ∈ resp.pr.assignedReviewers,
        ∃ m ∈ team.members, m.userID = rid ∧ m.isActive = true) ∧
    resp.pr.status = .OPEN := by
  unfold Service.CreatePullRequest at hrun
  split at hrun
  · exact absurd hrun (by simp)
  split at hrun
  · exact absurd hrun (by simp)
  rename_i author hauthor
  split at hrun
  · exact absurd hrun (by simp)
  rename_i team hteam
  dsimp only at hrun
  split at hrun
  · exact absurd hrun (by simp)
  split at hrun
  · exact absurd hrun (by simp)
  rename_i st2 u hloop
  simp only [Prod.mk.injEq, Except.ok.injEq] at hrun
  obtain ⟨⟨hresp, hst⟩, hr⟩ := hrun
  subst hresp
  obtain ⟨sh, hperm, hsel⟩ := createSelect_spec (createCandidates team author) r
  have hshlen : sh.length = (createCandidates team author).length := hperm.length_eq
  have hcN : ((createCandidates team author).map (fun m => m.userID)).Nodup := by
    unfold createCandidates
    exact ((List.filter_sublist _).map _).nodup (getTeam_members_nodup hnodup hteam)
  have hmem_cand : ∀ m ∈ sh.take (min 2 (createCandidates team author).length),
      m ∈ team.members ∧ m.isActive = true ∧ m.userID ≠ author.userID := by
    intro m hm
    have hms : m ∈ createCandidates team author :=
      hperm.mem_iff.mp (List.Sublist.mem hm (List.take_sublist ..))
    unfold createCandidates at hms
    rw [List.mem_filter] at hms
    obtain ⟨hmm, hpred⟩ := hms
    simp only [Bool.and_eq_true, Bool.not_eq_true', beq_eq_false_iff_ne] at hpred
    exact ⟨hmm, hpred.1, hpred.2⟩
  refine ⟨?_, ?_, ?_, ⟨author, team, hauthor, hteam, ?_⟩, rfl⟩
  · show ((createSelect (createCandidates team author) r).1).length ≤ 2
    rw [hsel, List.length_map, List.length_take]
    omega
  · show ((createSelect (createCandidates team author) r).1).Nodup
    rw [hsel, List.map_take]
    have hshN : (sh.map (fun m => m.userID)).Nodup :=
      ((hperm.map _).nodup_iff).mpr hcN
    exact (List.take_sublist ..).nodup hshN
  · show req.authorID ∉ (createSelect (createCandidates team author) r).1
    rw [hsel]
    intro hin
    rw [List.mem_map] at hin
    obtain ⟨m, hm, hid⟩ := hin
    exact (hmem_cand m hm).2.2 (by rw [hid, getUser_ok_id hauthor])
  · show ∀ rid ∈ (createSelect (createCandidates team author) r).1,
      ∃ m ∈ team.members, m.userID = rid ∧ m.isActive = true
    rw [hsel]
    intro rid hin
    rw [List.mem_map] at hin
    obtain ⟨m, hm, hid⟩ := hin
    exact ⟨m, (hmem_cand m hm).1, hid, (hmem_cand m hm).2.1⟩

/-- Witness for C1 at the spec's example team: author A, active B, C, D,
inactive E, constant-zero stream. -/
theorem c1_witness :
    ((List.map (fun u => u.userID)
        (Storage.users ⟨["core"],
          [⟨"A", "a", "core", true⟩, ⟨"B", "b", "core", true⟩, ⟨"C", "c", "core", true⟩,
            ⟨"D", "d", "core", true⟩, ⟨"E", "e", "core", false⟩], [], [], []⟩)).Nodup) ∧
    ((PullRequestResponse.pr
        ⟨⟨"pr1", "fix", "A", .OPEN, ["C", "D"], 100, 0⟩⟩).assignedReviewers.length ≤ 2 ∧
      (PullRequestResponse.pr
        ⟨⟨"pr1", "fix", "A", .OPEN, ["C", "D"], 100, 0⟩⟩).assignedReviewers.Nodup ∧
      (PullRequestResponse.pr ⟨⟨"pr1", "fix", "A", .OPEN, ["C", "D"], 100, 0⟩⟩).authorID ∉
        (PullRequestResponse.pr
          ⟨⟨"pr1", "fix", "A", .OPEN, ["C", "D"], 100, 0⟩⟩).assignedReviewers ∧
      (∃ author team,
        Storage.GetUser ⟨["core"],
          [⟨"A", "a", "core", true⟩, ⟨"B", "b", "core", true⟩, ⟨"C", "c", "core", true⟩,
            ⟨"D", "d", "core", true⟩, ⟨"E", "e", "core", false⟩], [], [], []⟩ "A" =
          .ok author ∧
        Storage.GetTeam ⟨["core"],
          [⟨"A", "a", "core", true⟩, ⟨"B", "b", "core", true⟩, ⟨"C", "c", "core", true⟩,
            ⟨"D", "d", "core", true⟩, ⟨"E", "e", "core", false⟩], [], [], []⟩ author.teamName =
          .ok team ∧
        ∀ rid ∈ (PullRequestResponse.pr
            ⟨⟨"pr1", "fix", "A", .OPEN, ["C", "D"], 100, 0⟩⟩).assignedReviewers,
          ∃ m ∈ team.members, m.userID = rid ∧ m.isActive = true) ∧
      (PullRequestResponse.pr ⟨⟨"pr1", "fix", "A", .OPEN, ["C", "D"], 100, 0⟩⟩).status =
        .OPEN) :=
  ⟨by decide,
    c1_create_invariants
      ⟨["core"],
        [⟨"A", "a", "core", true⟩, ⟨"B", "b", "core", true⟩, ⟨"C", "c", "core", true⟩,
          ⟨"D", "d", "core", true⟩, ⟨"E", "e", "core", false⟩], [], [], []⟩
      _ ⟨fun _ => 0, 0⟩ _ ⟨"pr1", "fix", "A"⟩ 100
      ⟨⟨"pr1", "fix", "A", .OPEN, ["C", "D"], 100, 0⟩⟩ (by decide) (by rfl)⟩

/-- The reviewer-link loop of the create path succeeds when the IDs are
distinct users, the PR row exists and no link for the PR collides. -/
theorem assignReviewersLoop_ok (prID : String) : ∀ (rids : List String) (st : Storage),
    rids.Nodup →
    (∀ rid ∈ rids, ∃ u ∈ st.users, u.userID = rid) →
    (st.prs.any fun p => p.pullRequestID = prID) = true →
    (∀ rv ∈ st.reviewers, rv.1 = prID → rv.2 ∉ rids) →
    ∃ st2, assignReviewersLoop prID rids st = (.ok (), st2)
  | [], st, _, _, _, _ => ⟨st, rfl⟩
  | rid :: rest, st, hnd, hus, hpr, hinv => by
    have hfresh : (prID, rid) ∉ st.reviewers := fun hmem =>
      hinv (prID, rid) hmem rfl (List.mem_cons_self rid rest)
    have huid : (st.users.any fun u => u.userID = rid) = true := by
      rw [List.any_eq_true]
      obtain ⟨u, hu, hueq⟩ := hus rid (List.mem_cons_self rid rest)
      exact ⟨u, hu, by simp [hueq]⟩
    have hins : st.AssignReviewer prID rid = .ok
        { st with reviewers := st.reviewers ++ [(prID, rid)] } := by
      unfold Storage.AssignReviewer insertReviewerRow
      rw [if_neg hfresh, if_pos hpr, if_pos huid]
    rw [List.nodup_cons] at hnd
    obtain ⟨st2, hst2⟩ := assignReviewersLoop_ok prID rest
      { st with reviewers := st.reviewers ++ [(prID, rid)] }
      hnd.2 (fun v hv => hus v (List.mem_cons_of_mem rid hv)) hpr
      (by
        intro rv hrv h1 h2
        rcases List.mem_append.mp hrv with hrv | hrv
        · exact hinv rv hrv h1 (List.mem_cons_of_mem rid h2)
        · rw [List.mem_singleton] at hrv
          subst hrv
          exact hnd.1 h2)
    refine ⟨st2, ?_⟩
    unfold assignReviewersLoop
    rw [hins]
    exact hst2

/-- On a well-formed store, with a fresh PR id and a resolvable author
and team, the create call runs to success: the row INSERT sees a free
primary key and a valid author, and every reviewer INSERT sees distinct
user-backed IDs on a PR with no prior links. -/
theorem create_run (st : Storage) (r : Rng) (req : CreatePullRequestRequest) (now : Nat)
    (author : User) (team : Team) (e0 : StoreErr)
    (hwf : st.WF)
    (hfresh : st.GetPullRequest req.pullRequestID = .error e0)
    (hauthor : st.GetUser req.authorID = .ok author)
    (hteam : st.GetTeam author.teamName = .ok team) :
    ∃ st1, Service.CreatePullRequest st r req now =
      ((.ok ⟨⟨req.pullRequestID, req.pullRequestName, req.authorID, .OPEN,
        (createSelect (createCandidates team author) r).1, now, 0⟩⟩, st1),
        (createSelect (createCandidates team author) r).2) := by
  have hfind : st.prs.find? (fun p => p.pullRequestID = req.pullRequestID) = none := by
    unfold Storage.GetPullRequest at hfresh
    cases hf : st.prs.find? (fun p => p.pullRequestID = req.pullRequestID) with
    | none => rfl
    | some q => rw [hf] at hfresh; cases hfresh
  have hanyf : (st.prs.any fun p => p.pullRequestID = req.pullRequestID) = false := by
    rw [List.any_eq_false]
    intro x hx
    exact List.find?_eq_none.mp hfind x hx
  have hauth_any : (st.users.any fun u => u.userID = req.authorID) = true := by
    rw [List.any_eq_true]
    refine ⟨author, getUser_ok_mem hauthor, ?_⟩
    simp [getUser_ok_id hauthor]
  have hcreate : st.CreatePullRequest ⟨req.pullRequestID, req.pullRequestName, req.authorID,
      .OPEN, (createSelect (createCandidates team author) r).1, now, 0⟩ = Except.ok
      { st with prs := st.prs ++
        [⟨req.pullRequestID, req.pullRequestName, req.authorID, .OPEN, now, 0⟩] } := by
    unfold Storage.CreatePullRequest
    rw [if_neg (by rw [hanyf]; simp), if_pos hauth_any]
  obtain ⟨sh, hperm, hsel⟩ := createSelect_spec (createCandidates team author) r
  have hcN : ((createCandidates team author).map (fun m => m.userID)).Nodup := by
    unfold createCandidates
    exact ((List.filter_sublist _).map _).nodup (getTeam_members_nodup hwf.userIdsNodup hteam)
  have handN : ((createSelect (createCandidates team author) r).1).Nodup := by
    rw [hsel, List.map_take]
    exact (List.take_sublist ..).nodup (((hperm.map _).nodup_iff).mpr hcN)
  have hasub : ∀ rid ∈ (createSelect (createCandidates team author) r).1,
      ∃ u ∈ st.users, u.userID = rid := by
    rw [hsel]
    intro rid hin
    rw [List.mem_map] at hin
    obtain ⟨m, hm, hid⟩ := hin
    have hms : m ∈ createCandidates team author :=
      hperm.mem_iff.mp (List.Sublist.mem hm (List.take_sublist ..))
    unfold createCandidates at hms
    obtain ⟨u, hu, hueq⟩ := getTeam_member_user hteam m (List.mem_filter.mp hms).1
    exact ⟨u, hu, by rw [hueq, hid]⟩
  have hnolink : ∀ rv ∈ st.reviewers, rv.1 = req.pullRequestID →
      rv.2 ∉ (createSelect (createCandidates team author) r).1 := by
    intro rv hrv h1 _
    obtain ⟨p, hp, hpid⟩ := hwf.reviewerPrFK rv hrv
    rw [List.any_eq_false] at hanyf
    refine absurd ?_ (hanyf p hp)
    simp [hpid, h1]
  have hany1 : ((st.prs ++
      [(⟨req.pullRequestID, req.pullRequestName, req.authorID, .OPEN, now, 0⟩ : PRRow)]).any
        fun p => p.pullRequestID = req.pullRequestID) = true := by
    rw [List.any_eq_true]
    refine ⟨⟨req.pullRequestID, req.pullRequestName, req.authorID, .OPEN, now, 0⟩, ?_, ?_⟩
    · exact List.mem_append_right _ (List.mem_singleton.mpr rfl)
    · simp
  obtain ⟨st2, hloop⟩ := assignReviewersLoop_ok req.pullRequestID
    (createSelect (createCandidates team author) r).1
    { st with prs := st.prs ++
      [⟨req.pullRequestID, req.pullRequestName, req.authorID, .OPEN, now, 0⟩] }
    handN hasub hany1 hnolink
  refine ⟨st2, ?_⟩
  unfold Service.CreatePullRequest
  rw [hfresh]
  dsimp only
  rw [hauthor]
  dsimp only
  rw [hteam]
  dsimp only
  rw [hcreate]
  dsimp only
  rw [hloop]

/-- C7: on a well-formed store, with a fresh PR id and a resolvable
author and team, an empty pool yields a successful create with zero
reviewers and an untouched generator; in general the assigned list is,
for every stream, the IDs of the first min(2, pool size) entries of some
permutation of the pool, so its length is exactly min(2, pool size). -/
theorem c7_create_selection (st : Storage) (r : Rng) (req : CreatePullRequestRequest)
    (now : Nat) (author : User) (team : Team) (e0 : StoreErr)
    (hwf : st.WF)
    (hfresh : st.GetPullRequest req.pullRequestID = .error e0)
    (hauthor : st.GetUser req.authorID = .ok author)
    (hteam : st.GetTeam author.teamName = .ok team) :
    (createCandidates team author = [] →
      ∃ st1, Service.CreatePullRequest st r req now =
        ((.ok ⟨⟨req.pullRequestID, req.pullRequestName, req.authorID, .OPEN, [], now, 0⟩⟩,
          st1), r)) ∧
    (∃ (shuffled : List TeamMember) (st1 : Storage),
      shuffled.Perm (createCandidates team author) ∧
      Service.CreatePullRequest st r req now =
        ((.ok ⟨⟨req.pullRequestID, req.pullRequestName, req.authorID, .OPEN,
          (shuffled.take (min 2 (createCandidates team author).length)).map
            (fun m => m.userID), now, 0⟩⟩, st1),
          (createSelect (createCandidates team author) r).2) ∧
      ((shuffled.take (min 2 (createCandidates team author).length)).map
        (fun m => m.userID)).length = min 2 (createCandidates team author).length) := by
  obtain ⟨st1, hrun⟩ := create_run st r req now author team e0 hwf hfresh hauthor hteam
  obtain ⟨sh, hperm, hsel⟩ := createSelect_spec (createCandidates team author) r
  constructor
  · intro hempty
    refine ⟨st1, ?_⟩
    rw [hrun, hsel, hempty]
    simp [createSelect]
  · refine ⟨sh, st1, hperm, ?_, ?_⟩
    · rw [hrun, hsel]
    · rw [List.length_map, List.length_take, hperm.length_eq]
      omega

/-- Witness for C7: author A with active teammates B, C, D (E inactive),
constant-zero stream; the pool has size three, so exactly two reviewers
are assigned. -/
theorem c7_witness :
    (createCandidates
        ⟨"core", [⟨"A", "a", true⟩, ⟨"B", "b", true⟩, ⟨"C", "c", true⟩, ⟨"D", "d", true⟩,
          ⟨"E", "e", false⟩]⟩ ⟨"A", "a", "core", true⟩ = [] →
      ∃ st1, Service.CreatePullRequest
          ⟨["core"],
            [⟨"A", "a", "core", true⟩, ⟨"B", "b", "core", true⟩, ⟨"C", "c", "core", true⟩,
              ⟨"D", "d", "core", true⟩, ⟨"E", "e", "core", false⟩], [], [], []⟩
          ⟨fun _ => 0, 0⟩ ⟨"pr1", "fix", "A"⟩ 100 =
        ((.ok ⟨⟨"pr1", "fix", "A", .OPEN, [], 100, 0⟩⟩, st1), ⟨fun _ => 0, 0⟩)) ∧
    (∃ (shuffled : List TeamMember) (st1 : Storage),
      shuffled.Perm (createCandidates
        ⟨"core", [⟨"A", "a", true⟩, ⟨"B", "b", true⟩, ⟨"C", "c", true⟩, ⟨"D", "d", true⟩,
          ⟨"E", "e", false⟩]⟩ ⟨"A", "a", "core", true⟩) ∧
      Service.CreatePullRequest
          ⟨["core"],
            [⟨"A", "a", "core", true⟩, ⟨"B", "b", "core", true⟩, ⟨"C", "c", "core", true⟩,
              ⟨"D", "d", "core", true⟩, ⟨"E", "e", "core", false⟩], [], [], []⟩
          ⟨fun _ => 0, 0⟩ ⟨"pr1", "fix", "A"⟩ 100 =
        ((.ok ⟨⟨"pr1", "fix", "A", .OPEN,
          (shuffled.take (min 2 (createCandidates
            ⟨"core", [⟨"A", "a", true⟩, ⟨"B", "b", true⟩, ⟨"C", "c", true⟩, ⟨"D", "d", true⟩,
              ⟨"E", "e", false⟩]⟩ ⟨"A", "a", "core", true⟩).length)).map
            (fun m => m.userID), 100, 0⟩⟩, st1),
          (createSelect (createCandidates
            ⟨"core", [⟨"A", "a", true⟩, ⟨"B", "b", true⟩, ⟨"C", "c", true⟩, ⟨"D", "d", true⟩,
              ⟨"E", "e", false⟩]⟩ ⟨"A", "a", "core", true⟩) ⟨fun _ => 0, 0⟩).2) ∧
      ((shuffled.take (min 2 (createCandidates
          ⟨"core", [⟨"A", "a", true⟩, ⟨"B", "b", true⟩, ⟨"C", "c", true⟩, ⟨"D", "d", true⟩,
            ⟨"E", "e", false⟩]⟩ ⟨"A", "a", "core", true⟩).length)).map
        (fun m => m.userID)).length = min 2 (createCandidates
          ⟨"core", [⟨"A", "a", true⟩, ⟨"B", "b", true⟩, ⟨"C", "c", true⟩, ⟨"D", "d", true⟩,
            ⟨"E", "e", false⟩]⟩ ⟨"A", "a", "core", true⟩).length) :=
  c7_create_selection
    ⟨["core"],
      [⟨"A", "a", "core", true⟩, ⟨"B", "b", "core", true⟩, ⟨"C", "c", "core", true⟩,
        ⟨"D", "d", "core", true⟩, ⟨"E", "e", "core", false⟩], [], [], []⟩
    ⟨fun _ => 0, 0⟩ ⟨"pr1", "fix", "A"⟩ 100 ⟨"A", "a", "core", true⟩
    ⟨"core", [⟨"A", "a", true⟩, ⟨"B", "b", true⟩, ⟨"C", "c", true⟩, ⟨"D", "d", true⟩,
      ⟨"E", "e", false⟩]⟩ (.notFound "pr not found: sql: no rows in result set")
    (by constructor <;> decide) (by rfl) (by rfl) (by rfl)

/-- What the cascading DELETE leaves: the team row gone, other teams and
the fault set kept, and no surviving user row carrying the name. -/
theorem deleteTeam_out (st : Storage) (name : String) :
    (st.DeleteTeam name).teams = st.teams.filter (fun n => !(n == name)) ∧
    (st.DeleteTeam name).failUpsert = st.failUpsert ∧
    ∀ u ∈ (st.DeleteTeam name).users, u.teamName ≠ name := by
  refine ⟨rfl, rfl, ?_⟩
  intro u hu
  have hu2 := (List.mem_filter.mp hu).2
  simpa using hu2

/-- A non-faulted upsert under a registered team succeeds and only edits
the user rows: the new row is present, every row is the new one or an old
one, and old rows with a different ID survive. -/
theorem upsertUser_users (st : Storage) (u0 : User)
    (h : u0.userID ∉ st.failUpsert) (hteam : u0.teamName ∈ st.teams) :
    ∃ st', st.UpsertUser u0 = .ok st' ∧ st'.teams = st.teams ∧
      st'.failUpsert = st.failUpsert ∧ st'.prs = st.prs ∧ st'.reviewers = st.reviewers ∧
      u0 ∈ st'.users ∧
      (∀ v ∈ st'.users, v = u0 ∨ v ∈ st.users) ∧
      (∀ v ∈ st.users, v.userID ≠ u0.userID → v ∈ st'.users) := by
  unfold Storage.UpsertUser
  rw [if_neg h, if_pos hteam]
  by_cases hc : (st.users.any fun v => v.userID = u0.userID) = true
  · rw [if_pos hc]
    refine ⟨_, rfl, rfl, rfl, rfl, rfl, ?_, ?_, ?_⟩
    · rw [List.any_eq_true] at hc
      obtain ⟨x, hx, hpx⟩ := hc
      simp only [decide_eq_true_eq] at hpx
      exact List.mem_map.mpr ⟨x, hx, by rw [if_pos hpx]⟩
    · intro v hv
      rw [List.mem_map] at hv
      obtain ⟨x, hx, hfx⟩ := hv
      by_cases hxx : x.userID = u0.userID
      · rw [if_pos hxx] at hfx
        exact Or.inl hfx.symm
      · rw [if_neg hxx] at hfx
        exact Or.inr (hfx ▸ hx)
    · intro v hv hne
      exact List.mem_map.mpr ⟨v, hv, by rw [if_neg hne]⟩
  · rw [if_neg hc]
    refine ⟨_, rfl, rfl, rfl, rfl, rfl, by simp, ?_, ?_⟩
    · intro v hv
      rcases List.mem_append.mp hv with hv | hv
      · exact Or.inr hv
      · exact Or.inl (by simpa using hv)
    · intro v hv _
      exact List.mem_append.mpr (Or.inl hv)

/-- The member loop, run under a registered team row on members with
distinct fresh IDs none of which fault, succeeds without touching teams,
PRs or the fault set; afterwards every user row of the team's name comes
from the whole member list, every processed member's row is present, and
rows with other IDs survive. -/
theorem addTeamMembersLoop_ok (name : String) (whole : List TeamMember) :
    ∀ (ms : List TeamMember) (st : Storage),
    (∀ m ∈ ms, m.userID ∉ st.failUpsert) →
    name ∈ st.teams →
    (∀ m ∈ ms, m ∈ whole) →
    (∀ u ∈ st.users, u.teamName = name → ∃ m0 ∈ whole, u = memberUser name m0) →
    ((ms.map (fun m => m.userID)).Nodup) →
    ∃ stk, addTeamMembersLoop name ms st = (.ok (), stk) ∧
      stk.teams = st.teams ∧ stk.failUpsert = st.failUpsert ∧ stk.prs = st.prs ∧
      (∀ u ∈ stk.users, u.teamName = name → ∃ m0 ∈ whole, u = memberUser name m0) ∧
      (∀ m ∈ ms, memberUser name m ∈ stk.users) ∧
      (∀ u ∈ st.users, (∀ m ∈ ms, m.userID ≠ u.userID) → u ∈ stk.users)
  | [], st, _, _, _, H0, _ =>
    ⟨st, rfl, rfl, rfl, rfl, H0, by simp, fun u hu _ => hu⟩
  | m :: ms, st, hok, hname, hsub, H0, hnd => by
    obtain ⟨st', hup, hteams, hfail, hprs, hrevs, hin, hcases, hkeep⟩ :=
      upsertUser_users st (memberUser name m) (hok m (List.mem_cons_self m ms)) hname
    have hnd' : ((ms.map (fun x => x.userID)).Nodup) := by
      rw [List.map_cons, List.nodup_cons] at hnd
      exact hnd.2
    have hmid : m.userID ∉ ms.map (fun x => x.userID) := by
      rw [List.map_cons, List.nodup_cons] at hnd
      exact hnd.1
    obtain ⟨stk, hloop, hkteams, hkfail, hkprs, hkinv, hkmem, hkkeep⟩ :=
      addTeamMembersLoop_ok name whole ms st'
        (fun x hx => by rw [hfail]; exact hok x (List.mem_cons_of_mem m hx))
        (by rw [hteams]; exact hname)
        (fun x hx => hsub x (List.mem_cons_of_mem m hx))
        (fun u hu hname2 => by
          rcases hcases u hu with hv | hv
          · exact ⟨m, hsub m (List.mem_cons_self m ms), hv⟩
          · exact H0 u hv hname2)
        hnd'
    refine ⟨stk, ?_, by rw [hkteams, hteams], by rw [hkfail, hfail],
      by rw [hkprs, hprs], hkinv, ?_, ?_⟩
    · unfold addTeamMembersLoop
      dsimp only
      rw [hup]
      exact hloop
    · intro x hx
      rcases List.mem_cons.mp hx with hv | hv
      · subst hv
        refine hkkeep (memberUser name x) hin ?_
        intro m' hm' he
        have he' : m'.userID = x.userID := he
        exact hmid (by simpa [he'] using List.mem_map_of_mem (fun y => y.userID) hm')
      · exact hkmem x hv
    · intro u hu hne
      have h1 : u.userID ≠ (memberUser name m).userID := by
        simp only [memberUser]
        exact fun he => hne m (List.mem_cons_self m ms) he.symm
      refine hkkeep u (hkeep u hu h1) ?_
      intro m' hm'
      exact hne m' (List.mem_cons_of_mem m hm')

/-- C8: AddTeam on a registered name fails with TEAM_EXISTS and leaves
the store untouched (no member upserts); with a fresh name, if some
member's upsert fails on the driver after the members before it
succeeded, AddTeam rolls back the team row with a compensating delete
and surfaces the wrapped upsert error; the delete cascades, so the team
is unregistered and no user row carries its name. -/
theorem c8_addteam_conflict_and_rollback :
    (∀ (st : Storage) (team : Team), team.teamName ∈ st.teams →
      Service.AddTeam st team =
        (.error (errWithCode ErrorCodeTeamExists "team_name already exists"), st)) ∧
    (∀ (st : Storage) (team : Team) (pre : List TeamMember) (m : TeamMember)
        (post : List TeamMember),
      team.teamName ∉ st.teams →
      team.members = pre ++ m :: post →
      (∀ x ∈ pre, x.userID ∉ st.failUpsert) →
      m.userID ∈ st.failUpsert →
      ∃ st2, Service.AddTeam st team =
        (.error (.wrapped ("failed upsert user " ++ m.userID ++ ": " ++
          "upsert user: driver failure")), st2) ∧
        st2.teams = st.teams ∧ team.teamName ∉ st2.teams ∧
        st2.failUpsert = st.failUpsert ∧
        (∀ u ∈ st2.users, u.teamName ≠ team.teamName)) := by
  constructor
  · intro st team hmem
    unfold Service.AddTeam Storage.CreateTeam
    rw [if_pos hmem]
    rfl
  · intro st team pre m post hfresh hsplit hpre hm
    have hloopfail : ∀ (pre1 : List TeamMember) (st0 : Storage),
        (∀ x ∈ pre1, x.userID ∉ st0.failUpsert) → team.teamName ∈ st0.teams →
        m.userID ∈ st0.failUpsert →
        ∃ stk, addTeamMembersLoop team.teamName (pre1 ++ m :: post) st0 =
          (.error (.wrapped ("failed upsert user " ++ m.userID ++ ": " ++
            "upsert user: driver failure")), stk) ∧
          stk.teams = st0.teams.filter (fun n => !(n == team.teamName)) ∧
          stk.failUpsert = st0.failUpsert ∧
          (∀ u ∈ stk.users, u.teamName ≠ team.teamName) := by
      intro pre1
      induction pre1 with
      | nil =>
        intro st0 _ _ hm0
        obtain ⟨hd1, hd2, hd3⟩ := deleteTeam_out st0 team.teamName
        refine ⟨st0.DeleteTeam team.teamName, ?_, hd1, hd2, hd3⟩
        rw [List.nil_append]
        unfold addTeamMembersLoop
        dsimp only
        rw [show st0.UpsertUser (memberUser team.teamName m) =
          .error (.driver "upsert user: driver failure") from by
            unfold Storage.UpsertUser
            rw [if_pos (show (memberUser team.teamName m).userID ∈ st0.failUpsert from hm0)]]
        exact rfl
      | cons x pre1 ih =>
        intro st0 hpre0 hname0 hm0
        obtain ⟨st', hup, hteams, hfail, hprs, hrevs, -, -, -⟩ :=
          upsertUser_users st0 (memberUser team.teamName x)
            (hpre0 x (List.mem_cons_self x pre1)) hname0
        obtain ⟨stk, hloop, hkteams, hkfail, hkusers⟩ := ih st'
          (fun y hy => by rw [hfail]; exact hpre0 y (List.mem_cons_of_mem x hy))
          (by rw [hteams]; exact hname0)
          (by rw [hfail]; exact hm0)
        refine ⟨stk, ?_, by rw [hkteams, hteams], by rw [hkfail, hfail], hkusers⟩
        show addTeamMembersLoop team.teamName ((x :: pre1) ++ m :: post) st0 =
          (.error (.wrapped ("failed upsert user " ++ m.userID ++ ": " ++
            "upsert user: driver failure")), stk)
        rw [List.cons_append]
        unfold addTeamMembersLoop
        dsimp only
        rw [hup]
        exact hloop
    obtain ⟨stk, hloop, hkteams, hkfail, hkusers⟩ :=
      hloopfail pre { st with teams := st.teams ++ [team.teamName] } hpre
        (List.mem_append.mpr (Or.inr (by simp))) hm
    have hteamsk : stk.teams = st.teams := by
      rw [hkteams]
      show (st.teams ++ [team.teamName]).filter (fun n => !(n == team.teamName)) = st.teams
      rw [List.filter_append]
      have h1 : st.teams.filter (fun n => !(n == team.teamName)) = st.teams :=
        List.filter_eq_self.mpr (fun a ha => by
          simp only [Bool.not_eq_true', beq_eq_false_iff_ne]
          exact fun he => hfresh (he ▸ ha))
      have h2 : ([team.teamName].filter (fun n => !(n == team.teamName))) = [] := by
        simp
      rw [h1, h2, List.append_nil]
    refine ⟨stk, ?_, hteamsk, by rw [hteamsk]; exact hfresh, hkfail, hkusers⟩
    unfold Service.AddTeam Storage.CreateTeam
    rw [if_neg hfresh]
    dsimp only
    rw [hsplit, hloop]

/-- Witness for C8: both parts at concrete stores — a duplicate "core"
team, and a fresh "new" team whose only member's upsert faults. -/
theorem c8_witness :
    Service.AddTeam ⟨["core"], [], [], [], []⟩ ⟨"core", [⟨"U", "u", true⟩]⟩ =
      (.error (errWithCode ErrorCodeTeamExists "team_name already exists"),
        ⟨["core"], [], [], [], []⟩) ∧
    ∃ st2, Service.AddTeam ⟨["core"], [], [], [], ["U"]⟩ ⟨"new", [⟨"U", "u", true⟩]⟩ =
      (.error (.wrapped ("failed upsert user " ++ "U" ++ ": " ++
        "upsert user: driver failure")), st2) ∧
      st2.teams = Storage.teams ⟨["core"], [], [], [], ["U"]⟩ ∧
      "new" ∉ st2.teams ∧
      st2.failUpsert = Storage.failUpsert ⟨["core"], [], [], [], ["U"]⟩ ∧
      (∀ u ∈ st2.users, u.teamName ≠ "new") :=
  ⟨c8_addteam_conflict_and_rollback.1 ⟨["core"], [], [], [], []⟩ ⟨"core", [⟨"U", "u", true⟩]⟩
      (by decide),
    c8_addteam_conflict_and_rollback.2 ⟨["core"], [], [], [], ["U"]⟩
      ⟨"new", [⟨"U", "u", true⟩]⟩ [] ⟨"U", "u", true⟩ [] (by decide) (by rfl) (by decide)
      (by decide)⟩

/-- C9: creating a fresh team whose members have distinct IDs (none
faulting, no stale rows under the new name) succeeds, and an immediate
GetTeam returns the same member set — same IDs, usernames and active
flags. -/
theorem c9_addteam_then_getteam (st : Storage) (team : Team)
    (hfresh : team.teamName ∉ st.teams)
    (hdistinct : (team.members.map (fun m => m.userID)).Nodup)
    (husers : ∀ u ∈ st.users, u.teamName ≠ team.teamName)
    (hnofail : ∀ m ∈ team.members, m.userID ∉ st.failUpsert) :
    ∃ st1, Service.AddTeam st team = (.ok ⟨team⟩, st1) ∧
      ∃ team1, Service.GetTeam st1 team.teamName = .ok ⟨team1⟩ ∧
        team1.teamName = team.teamName ∧
        (∀ tm, tm ∈ team1.members ↔ tm ∈ team.members) := by
  obtain ⟨stk, hloop, hkteams, hkfail, hkprs, hkinv, hkmem, hkkeep⟩ :=
    addTeamMembersLoop_ok team.teamName team.members team.members
      { st with teams := st.teams ++ [team.teamName] }
      (fun m hm => hnofail m hm)
      (List.mem_append.mpr (Or.inr (by simp)))
      (fun m hm => hm)
      (fun u hu hname => absurd hname (husers u hu))
      hdistinct
  have hmemname : team.teamName ∈ stk.teams := by
    rw [hkteams]
    exact List.mem_append.mpr (Or.inr (by simp))
  refine ⟨stk, ?_, ?_⟩
  · unfold Service.AddTeam Storage.CreateTeam
    rw [if_neg hfresh]
    dsimp only
    rw [hloop]
  · refine ⟨⟨team.teamName, (stk.users.filter (fun u => u.teamName = team.teamName)).map
      (fun u => ⟨u.userID, u.username, u.isActive⟩)⟩, ?_, rfl, ?_⟩
    · unfold Service.GetTeam Storage.GetTeam
      rw [if_pos hmemname]
    · intro tm
      constructor
      · intro htm
        rw [List.mem_map] at htm
        obtain ⟨u, hu, htmu⟩ := htm
        rw [List.mem_filter] at hu
        obtain ⟨hu1, hu2⟩ := hu
        simp only [decide_eq_true_eq] at hu2
        obtain ⟨m0, hm0, hum⟩ := hkinv u hu1 hu2
        subst hum
        rw [← htmu]
        exact hm0
      · intro htm
        rw [List.mem_map]
        refine ⟨memberUser team.teamName tm, ?_, rfl⟩
        rw [List.mem_filter]
        exact ⟨hkmem tm htm, by simp [memberUser]⟩

/-- Witness for C9: a fresh "core" team with members A (active) and B
(inactive) added to an empty store, then fetched. -/
theorem c9_witness :
    ∃ st1, Service.AddTeam ⟨[], [], [], [], []⟩
        ⟨"core", [⟨"A", "a", true⟩, ⟨"B", "b", false⟩]⟩ =
      (.ok ⟨⟨"core", [⟨"A", "a", true⟩, ⟨"B", "b", false⟩]⟩⟩, st1) ∧
      ∃ team1, Service.GetTeam st1
          (Team.teamName ⟨"core", [⟨"A", "a", true⟩, ⟨"B", "b", false⟩]⟩) = .ok ⟨team1⟩ ∧
        team1.teamName = Team.teamName ⟨"core", [⟨"A", "a", true⟩, ⟨"B", "b", false⟩]⟩ ∧
        (∀ tm, tm ∈ team1.members ↔
          tm ∈ Team.members ⟨"core", [⟨"A", "a", true⟩, ⟨"B", "b", false⟩]⟩) :=
  c9_addteam_then_getteam ⟨[], [], [], [], []⟩
    ⟨"core", [⟨"A", "a", true⟩, ⟨"B", "b", false⟩]⟩
    (by decide) (by decide) (by decide) (by decide)

/-- Witness for C10 at the TEAM_EXISTS error. -/
theorem c10_witness :
    (errWithCode ErrorCodeTeamExists "team_name already exists").errorString =
        "team_name already exists" ∧
      (splitN2 ((errWithCode ErrorCodeTeamExists "team_name already exists").errorString)
        ": ").length = 1 ∧
      ParseCodeFromError (errWithCode ErrorCodeTeamExists "team_name already exists") = "" ∧
      getStatusByCode (ParseCodeFromError
        (errWithCode ErrorCodeTeamExists "team_name already exists")) =
        statusInternalServerError ∧
      getStatusByCode (ParseCodeFromError
        (errWithCode ErrorCodeTeamExists "team_name already exists")) ≠ statusNotFound ∧
      getStatusByCode (ParseCodeFromError
        (errWithCode ErrorCodeTeamExists "team_name already exists")) ≠ statusConflict :=
  c10_typed_errors_map_to_internal_status
    (ErrorCodeTeamExists, "team_name already exists") (by decide)

end PRReview
